import Mathlib

/-!
The staged-write, atomic-commit orchestrator of makisu,
`lib/storage/image_store.go`.

A shallow embedding of `NewImageStore`, `CleanupSandbox` and
`ImageStore.SaveManifest`, written as explicit state passing over a model of
the filesystem.

Modelling conventions.

* A path is its list of components (`filepath.Join a b` is `a ++ b`); paths are
  taken as already cleaned and are read from one base directory, which is the
  empty list and prints as the empty string.
* The filesystem is a list of directory entries `(path, node)`; `stat` reads
  the first entry for a path. Directory operations fail for reasons that are
  decided by the state (a component on the way that is missing or is a regular
  file, name taken, parent not writable by the caller), as the underlying
  system calls answer.
* The random names drawn by `ioutil.TempDir` / `ioutil.TempFile` and the I/O
  faults of `Write` / `Close` are explicit inputs of a call.
* Go's `error` is `Option GoError` (`none` is `nil`).
* `image.DistributionManifest`, `image.Name`, `ManifestStore` and
  `LayerTarStore` live outside this source file; their types are parameters and
  the operations called on them are collected in `Deps`.
-/

namespace Makisu

/-! ## Errors -/

/-- The `syscall.Errno` values that the modelled operations can report. -/
inductive Errno where
  | EEXIST
  | ENOTEMPTY
  | ENOENT
  | ENOTDIR
  | EACCES
  | ENOSPC
  | EROFS
  deriving DecidableEq, Repr

/-- Text of `syscall.Errno.Error()`. -/
def Errno.Error : Errno → String
  | .EEXIST => "file exists"
  | .ENOTEMPTY => "directory not empty"
  | .ENOENT => "no such file or directory"
  | .ENOTDIR => "not a directory"
  | .EACCES => "permission denied"
  | .ENOSPC => "no space left on device"
  | .EROFS => "read-only file system"

abbrev Path := List String

abbrev Bytes := List UInt8

/-- Rendering of a path as the string Go would print. -/
def Path.str (p : Path) : String := String.intercalate "/" p

/-- Go error values: `*os.PathError`, `*os.LinkError`, the sentinel
`os.ErrExist`, and the `*errors.errorString` built by `errors.New` and by
`fmt.Errorf` without `%w`. -/
inductive GoError where
  | PathError (op : String) (path : Path) (err : Errno)
  | LinkError (op : String) (old new : Path) (err : Errno)
  | ErrExist
  | ErrInvalid
  | errorString (s : String)
  deriving DecidableEq, Repr

/-- Text of `err.Error()`. -/
def GoError.Error : GoError → String
  | .PathError op path err => op ++ " " ++ path.str ++ ": " ++ err.Error
  | .LinkError op old new err =>
      op ++ " " ++ old.str ++ " " ++ new.str ++ ": " ++ err.Error
  | .ErrExist => "file already exists"
  | .ErrInvalid => "invalid argument"
  | .errorString s => s

/-- Model of `os.IsExist`: unwraps `PathError` / `LinkError` and accepts
`EEXIST`, `ENOTEMPTY` and `os.ErrExist`. -/
def os.IsExist : GoError → Bool
  | .PathError _ _ e => e = .EEXIST || e = .ENOTEMPTY
  | .LinkError _ _ _ e => e = .EEXIST || e = .ENOTEMPTY
  | .ErrExist => true
  | .ErrInvalid => false
  | .errorString _ => false

/-- Model of `os.IsNotExist`. -/
def os.IsNotExist : GoError → Bool
  | .PathError _ _ e => e = .ENOENT
  | .LinkError _ _ _ e => e = .ENOENT
  | .ErrExist => false
  | .ErrInvalid => false
  | .errorString _ => false

/-- Model of `fmt.Errorf(pfx + "%s", err)`: the result is a plain error string
holding `pfx` followed by `err.Error()`. -/
def fmt.Errorf (pfx : String) (err : GoError) : GoError :=
  .errorString (pfx ++ err.Error)

/-! ## Filesystem -/

/-- A directory entry: a directory or a regular file, each with its mode bits. -/
inductive Node where
  | dir (perm : Nat)
  | file (perm : Nat) (content : Bytes)
  deriving DecidableEq, Repr, Inhabited

abbrev FS := List (Path × Node)

/-- Owner-write bit (`0200`) of a mode. -/
def ownerWritable (perm : Nat) : Bool := perm / 128 % 2 = 1

/-- Entry found at path `p`, if any. -/
def stat : FS → Path → Option Node
  | [], _ => none
  | (q, n) :: rest, p => if q = p then some n else stat rest p

/-- Path `p` is an existing directory. -/
def isDir (fs : FS) (p : Path) : Bool :=
  match stat fs p with
  | some (.dir _) => true
  | _ => false

/-- Path `q` is `p` itself or lies below it. -/
def atOrBelow (p q : Path) : Bool := p.isPrefixOf q

/-- What stands in the way of using `q` as a directory: nothing when `q` is a
directory, `ENOTDIR` when it is a regular file, `ENOENT` when it is missing. -/
def notDirErrno (fs : FS) (q : Path) : Option Errno :=
  match stat fs q with
  | some (.dir _) => none
  | some (.file _ _) => some .ENOTDIR
  | none => some .ENOENT

/-- Walk of path resolution from `pre` down the components `rest`. -/
def dirErrnoFrom (fs : FS) : Path → List String → Option Errno
  | pre, [] => notDirErrno fs pre
  | pre, c :: rest =>
    match notDirErrno fs pre with
    | some errno => some errno
    | none => dirErrnoFrom fs (pre ++ [c]) rest

/-- Errno with which the resolution of `d` as a directory fails, walking down
from the base directory: that of the first component that is not a directory
(`ENOENT` when it is missing, `ENOTDIR` when it is a regular file); `none`
when `d` and all its ancestors are directories. -/
def dirErrno (fs : FS) (d : Path) : Option Errno := dirErrnoFrom fs [] d

/-- Directory `d` exists and the caller may add or remove names in it. -/
def writableDir (fs : FS) (d : Path) : Bool :=
  match stat fs d with
  | some (.dir perm) => ownerWritable perm
  | _ => false

/-- Creation of a new entry `node` at `p`, shared by `mkdir(2)` and
`open(2)` with `O_CREAT|O_EXCL`: the parent must resolve as a directory
(`ENOENT` or `ENOTDIR` otherwise, by the first component that fails), the name
must be free (`EEXIST`), and the parent must be writable (`EACCES`). -/
def createEntry (op : String) (p : Path) (node : Node) (fs : FS) : Option GoError × FS :=
  match dirErrno fs p.dropLast with
  | some errno => (some (.PathError op p errno), fs)
  | none =>
    if (stat fs p).isSome then (some (.PathError op p .EEXIST), fs)
    else if writableDir fs p.dropLast then (none, fs ++ [(p, node)])
    else (some (.PathError op p .EACCES), fs)

/-- Model of `os.Mkdir(p, perm)`. -/
def os.Mkdir (p : Path) (perm : Nat) (fs : FS) : Option GoError × FS :=
  createEntry "mkdir" p (.dir perm) fs

/-- Tail of `os.MkdirAll`: `Mkdir(path, perm)`, whose failure is forgiven when
`Lstat` finds a directory at `path` all the same. -/
def os.mkdirOrFound (path : Path) (perm : Nat) (fs : FS) : Option GoError × FS :=
  match os.Mkdir path perm fs with
  | (some err, fs1) => if isDir fs1 path then (none, fs1) else (some err, fs1)
  | (none, fs1) => (none, fs1)

/-- Model of `os.MkdirAll`, recursing on the reversed component list the way
the library recurses on the parent path: an existing directory is success, an
existing file is `ENOTDIR`, otherwise the parent is created first (when the
path has one) and then `Mkdir` is called. -/
def os.mkdirAllRev : List String → Nat → FS → Option GoError × FS
  | [], perm, fs =>
    match stat fs [] with
    | some (.dir _) => (none, fs)
    | some (.file _ _) => (some (.PathError "mkdir" [] .ENOTDIR), fs)
    | none => os.mkdirOrFound [] perm fs
  | c :: parentRev, perm, fs =>
    let path := (c :: parentRev).reverse
    match stat fs path with
    | some (.dir _) => (none, fs)
    | some (.file _ _) => (some (.PathError "mkdir" path .ENOTDIR), fs)
    | none =>
      if parentRev.isEmpty then os.mkdirOrFound path perm fs
      else
        match os.mkdirAllRev parentRev perm fs with
        | (some err, fs1) => (some err, fs1)
        | (none, fs1) => os.mkdirOrFound path perm fs1

def os.MkdirAll (p : Path) (perm : Nat) (fs : FS) : Option GoError × FS :=
  os.mkdirAllRev p.reverse perm fs

/-- Entry at `q` can be removed together with everything below it: every entry
at or below `q` sits in a writable directory. -/
def removable (fs : FS) (q : Path) : Bool :=
  fs.all (fun e => !atOrBelow q e.1 || writableDir fs e.1.dropLast)

/-- Removal of `p` and any children it contains, everything that can be
removed: the error is that of the first entry whose removal its directory
forbids, and `nil` is returned exactly when nothing is left at or below `p`,
in particular when nothing was there. -/
def os.removeTree (p : Path) (fs : FS) : Option GoError × FS :=
  let fs1 := fs.filter (fun e => !(atOrBelow p e.1 && removable fs e.1))
  match fs1.find? (fun e => atOrBelow p e.1 && !writableDir fs e.1.dropLast) with
  | some e => (some (.PathError "unlinkat" e.1 .EACCES), fs1)
  | none =>
    match fs1.find? (fun e => atOrBelow p e.1) with
    | some e => (some (.PathError "unlinkat" e.1 .ENOTEMPTY), fs1)
    | none => (none, fs1)

/-- Model of `os.RemoveAll(p)`. When a regular file stands in the place of the
parent of `p` or of one of its ancestors, nothing is removed and `ENOTDIR` is
returned (from `unlinkat` when the parent itself is that file, from opening the
parent otherwise). In every other case `p` and its children are removed, and a
path that does not exist gives `nil`. -/
def os.RemoveAll (p : Path) (fs : FS) : Option GoError × FS :=
  match dirErrno fs p.dropLast with
  | some .ENOTDIR =>
    if (dirErrno fs p.dropLast.dropLast).isNone then
      (some (.PathError "unlinkat" p .ENOTDIR), fs)
    else (some (.PathError "open" p.dropLast .ENOTDIR), fs)
  | _ => os.removeTree p fs

/-- Value of `os.TempDir()` (the default when `$TMPDIR` is unset). -/
def os.TempDir : Path := ["tmp"]

/-- Loop of `ioutil.TempDir`: up to `fuel` tries with names `pfx ++ rand i`;
a name that is taken is skipped, any other `Mkdir` failure ends the loop (with
the error of `Stat(dir)` when `dir` is not there). The last error is returned
when the tries run out. -/
def ioutil.tempDirLoop (dir : Path) (pfx : String) (rand : Nat → String) :
    Nat → Nat → Option GoError → FS → (Path × Option GoError) × FS
  | 0, _, last, fs => (([], last), fs)
  | fuel + 1, i, _, fs =>
    let try_ := dir ++ [pfx ++ rand i]
    match os.Mkdir try_ 448 fs with
    | (none, fs1) => ((try_, none), fs1)
    | (some err, fs1) =>
      if os.IsExist err then ioutil.tempDirLoop dir pfx rand fuel (i + 1) (some err) fs1
      else if os.IsNotExist err && dirErrno fs1 dir == some .ENOENT then
        (([], some (.PathError "stat" dir .ENOENT)), fs1)
      else (([], some err), fs1)

/-- Model of `ioutil.TempDir(dir, pfx)` with the random draws `rand`. -/
def ioutil.TempDir (dir : Path) (pfx : String) (rand : Nat → String) (fs : FS) :
    (Path × Option GoError) × FS :=
  let dir := if dir = [] then os.TempDir else dir
  ioutil.tempDirLoop dir pfx rand 10000 0 none fs

/-- Loop of `ioutil.TempFile`: `os.OpenFile(name, O_RDWR|O_CREATE|O_EXCL, 0600)`
on up to `fuel` random names, retrying only when the name is taken. -/
def ioutil.tempFileLoop (dir : Path) (pfx : String) (rand : Nat → String) :
    Nat → Nat → Option GoError → FS → (Option Path × Option GoError) × FS
  | 0, _, last, fs => ((none, last), fs)
  | fuel + 1, i, _, fs =>
    let name := dir ++ [pfx ++ rand i]
    match createEntry "open" name (.file 384 []) fs with
    | (none, fs1) => ((some name, none), fs1)
    | (some err, fs1) =>
      if os.IsExist err then ioutil.tempFileLoop dir pfx rand fuel (i + 1) (some err) fs1
      else ((none, some err), fs1)

/-- Model of `ioutil.TempFile(dir, pattern)` for a pattern without `*`; the
result is the open file, identified by its name, or `nil` with an error. -/
def ioutil.TempFile (dir : Path) (pattern : String) (rand : Nat → String) (fs : FS) :
    (Option Path × Option GoError) × FS :=
  let dir := if dir = [] then os.TempDir else dir
  ioutil.tempFileLoop dir pattern rand 10000 0 none fs

/-- Entry `e` after `b` has been written to the regular file at `f`. -/
def written (f : Path) (b : Bytes) (e : Path × Node) : Path × Node :=
  match e with
  | (q, .file perm c) => if q = f then (q, .file perm (c ++ b)) else e
  | _ => e

/-- Appends `b` to the content of the regular file at `f`. -/
def appendContent (f : Path) (b : Bytes) (fs : FS) : FS := fs.map (written f b)

/-- Model of `(*os.File).Write(b)` on the open file `f` (`none` is the nil
file, rejected with `os.ErrInvalid`). `fault = none` writes all of `b`;
`fault = some (n, errno)` writes the first `n` bytes and fails. -/
def File.Write (f : Option Path) (b : Bytes) (fault : Option (Nat × Errno)) (fs : FS) :
    (Nat × Option GoError) × FS :=
  match f with
  | none => ((0, some .ErrInvalid), fs)
  | some name =>
    match fault with
    | none => ((b.length, none), appendContent name b fs)
    | some (n, errno) =>
      (((b.take n).length, some (.PathError "write" name errno)),
        appendContent name (b.take n) fs)

/-- Model of `(*os.File).Close()`. -/
def File.Close (f : Option Path) (fault : Option Errno) (fs : FS) : Option GoError × FS :=
  match f with
  | none => (some .ErrInvalid, fs)
  | some name =>
    match fault with
    | none => (none, fs)
    | some errno => (some (.PathError "close" name errno), fs)

/-- Model of `(*os.File).Name()`; the nil file is not reached by the callers. -/
def File.Name (f : Option Path) : Path := f.getD []

/-! ## The program -/

/-- What the code calls on values defined outside `image_store.go`:
`json.Marshal` on an `image.DistributionManifest`, the two getters of
`image.Name`, the constructors of the two sub-stores, and the adoption
primitive of the manifest store. `MS` and `LS` are the types of the values
`*ManifestStore` and `*LayerTarStore`. -/
structure Deps (M N MS LS : Type) where
  Marshal : M → Except GoError Bytes
  GetRepository : N → String
  GetTag : N → String
  NewManifestStore : Path → FS → Except GoError MS × FS
  NewLayerTarStore : Path → FS → Except GoError LS × FS
  LinkStoreFileFrom : MS → String → String → Path → FS → Option GoError × FS

/-- ImageStore contains a manifeststore, a layertarstore, and a sandbox dir. -/
structure ImageStore (MS LS : Type) where
  RootDir : Path
  SandboxDir : Path
  Manifests : MS
  Layers : LS
  deriving DecidableEq, Repr

/-- What one `SaveManifest` call draws from the environment: the random file
names tried by `ioutil.TempFile`, and the I/O faults met by `Write` and
`Close`. -/
structure Staging where
  rand : Nat → String
  writeFault : Option (Nat × Errno)
  closeFault : Option Errno

variable {M N MS LS : Type}

/-- NewImageStore creates a new ImageStore. `rand` are the random draws of
`ioutil.TempDir`. The result is the Go pair `(*ImageStore, error)` and the
filesystem left behind. -/
def NewImageStore (d : Deps M N MS LS) (rand : Nat → String) (rootDir : Path) (fs : FS) :
    (Option (ImageStore MS LS) × Option GoError) × FS :=
  let sandboxParent := rootDir ++ ["sandbox"]
  match os.MkdirAll sandboxParent 493 fs with
  | (some err, fs1) => ((none, some (fmt.Errorf "init sandbox parent dir: " err)), fs1)
  | (none, fs1) =>
    match ioutil.TempDir sandboxParent "sandbox" rand fs1 with
    | ((_, some err), fs2) => ((none, some (fmt.Errorf "init sandbox dir: " err)), fs2)
    | ((sandboxDir, none), fs2) =>
      match d.NewManifestStore rootDir fs2 with
      | (.error err, fs3) => ((none, some (fmt.Errorf "init manifest store: " err)), fs3)
      | (.ok m, fs3) =>
        match d.NewLayerTarStore rootDir fs3 with
        | (.error err, fs4) => ((none, some (fmt.Errorf "init layer store: " err)), fs4)
        | (.ok l, fs4) =>
          ((some { RootDir := rootDir, SandboxDir := sandboxDir, Manifests := m, Layers := l },
            none), fs4)

/-- CleanupSandbox removes sandbox dir. This should be done after every build. -/
def CleanupSandbox (rootDir : Path) (fs : FS) : Option GoError × FS :=
  let sandboxParent := rootDir ++ ["sandbox"]
  match os.RemoveAll sandboxParent fs with
  | (some err, fs1) =>
    (some (.errorString
      ("remove sandbox parent " ++ sandboxParent.str ++ ": " ++ err.Error)), fs1)
  | (none, fs1) => (none, fs1)

/-- The method `(*ImageStore).SaveManifest`. -/
def ImageStore.SaveManifest (d : Deps M N MS LS) (io : Staging) (store : ImageStore MS LS)
    (distManifest : M) (imageName : N) (fs : FS) : Option GoError × FS :=
  match d.Marshal distManifest with
  | .error err => (some (fmt.Errorf "marshal manifest to JSON: " err), fs)
  | .ok distManifestJSON =>
    match ioutil.TempFile store.SandboxDir "" io.rand fs with
    | ((_, some err), fs1) => (some (fmt.Errorf "create tmp manifest file: " err), fs1)
    | ((distManifestFile, none), fs1) =>
      match File.Write distManifestFile distManifestJSON io.writeFault fs1 with
      | ((_, some err), fs2) => (some (fmt.Errorf "write manifest file: " err), fs2)
      | ((_, none), fs2) =>
        match File.Close distManifestFile io.closeFault fs2 with
        | (some err, fs3) => (some (fmt.Errorf "close manifest file: " err), fs3)
        | (none, fs3) =>
          let distManifestPath := File.Name distManifestFile
          match d.LinkStoreFileFrom store.Manifests (d.GetRepository imageName)
              (d.GetTag imageName) distManifestPath fs3 with
          | (some err, fs4) =>
            if !os.IsExist err then
              (some (fmt.Errorf "commit replica manifest to store: " err), fs4)
            else (none, fs4)
          | (none, fs4) => (none, fs4)

/-! ## Vocabulary of the specification -/

/-- State `ready` of the specification's state machine: the store is the
product of a construction on its root (its sandbox is a direct child of
`<root>/sandbox`) and that sandbox directory is still there. -/
def ImageStore.Ready (store : ImageStore MS LS) (fs : FS) : Prop :=
  store.SandboxDir.dropLast = store.RootDir ++ ["sandbox"] ∧ isDir fs store.SandboxDir = true

instance (store : ImageStore MS LS) (fs : FS) : Decidable (store.Ready fs) := by
  unfold ImageStore.Ready; exact inferInstance

/-- Lines 92-98 of `SaveManifest`: what the call returns once the adoption
primitive has answered `r`. -/
def commitOutcome (r : Option GoError × FS) : Option GoError × FS :=
  match r with
  | (some err, fs4) =>
    if !os.IsExist err then
      (some (fmt.Errorf "commit replica manifest to store: " err), fs4)
    else (none, fs4)
  | (none, fs4) => (none, fs4)

/-- Message `msg` starts with `pfx`. -/
def hasPfx (pfx msg : String) : Bool := pfx.data.isPrefixOf msg.data

/-- Step of `NewImageStore` (1 to 4) that an error message names by its
prefix, following the four `fmt.Errorf` formats of the function. -/
def failedStep (msg : String) : Option Nat :=
  if hasPfx "init sandbox parent dir: " msg then some 1
  else if hasPfx "init sandbox dir: " msg then some 2
  else if hasPfx "init manifest store: " msg then some 3
  else if hasPfx "init layer store: " msg then some 4
  else none

/-- Error kinds of the specification's taxonomy. -/
inductive ErrorKind where
  | InitializationError
  | EncodingError
  | StagingError
  | CommitError
  | CleanupError
  | InvalidStateError
  deriving DecidableEq, Repr

/-- Kind of an error returned by `SaveManifest`, read from the `fmt.Errorf`
format of the return statement that built it: line 77 reports the encoding
step, lines 82, 85 and 88 the staging steps, line 95 the commit step. The
function has no other return statement with a non-nil error. -/
def saveErrorKind (msg : String) : Option ErrorKind :=
  if hasPfx "marshal manifest to JSON: " msg then some .EncodingError
  else if hasPfx "create tmp manifest file: " msg then some .StagingError
  else if hasPfx "write manifest file: " msg then some .StagingError
  else if hasPfx "close manifest file: " msg then some .StagingError
  else if hasPfx "commit replica manifest to store: " msg then some .CommitError
  else none

/-- Everything found at or below `<root>/sandbox` in `fs` is found unchanged
in `fs1`. -/
def KeepsSandbox (rootDir : Path) (fs fs1 : FS) : Prop :=
  ∀ q n, atOrBelow (rootDir ++ ["sandbox"]) q = true → stat fs q = some n → stat fs1 q = some n

/-- The constructors of the two sub-stores work in their own namespaces: they
leave in place whatever exists at or below `<root>/sandbox`. -/
def Deps.SubStoresKeepSandbox (d : Deps M N MS LS) : Prop :=
  ∀ rootDir fs, KeepsSandbox rootDir fs (d.NewManifestStore rootDir fs).2 ∧
    KeepsSandbox rootDir fs (d.NewLayerTarStore rootDir fs).2

/-- The adoption primitive leaves in place whatever exists at or below
`<root>/sandbox` (a hard link does not touch its source). -/
def Deps.AdoptKeepsSandbox (d : Deps M N MS LS) : Prop :=
  ∀ ms repo tag src rootDir fs,
    KeepsSandbox rootDir fs (d.LinkStoreFileFrom ms repo tag src fs).2

/-- Every entry other than the base directory sits in a directory that is
itself recorded: the list is the listing of a directory tree. -/
def parentsExist (fs : FS) : Bool :=
  fs.all (fun e => e.1.isEmpty || isDir fs e.1.dropLast)

/-- Number of directory entries recorded for path `p`. -/
def entryCount (fs : FS) (p : Path) : Nat := (fs.filter (fun e => e.1 = p)).length

/-- Contract of an adoption primitive that publishes key `(repo, tag)` of store
`ms` at `keyPath ms repo tag`: when the key is absent the staged file is linked
there (one new entry with the staged file's mode and content); when the key is
present an already-exists error is returned and nothing changes. -/
def Deps.AdoptsOnce (d : Deps M N MS LS) (keyPath : MS → String → String → Path) : Prop :=
  ∀ ms repo tag src fs,
    (stat fs (keyPath ms repo tag) = none →
      ∀ perm content, stat fs src = some (.file perm content) →
        d.LinkStoreFileFrom ms repo tag src fs =
          (none, fs ++ [(keyPath ms repo tag, .file perm content)])) ∧
    (stat fs (keyPath ms repo tag) ≠ none →
      ∃ err, os.IsExist err = true ∧ d.LinkStoreFileFrom ms repo tag src fs = (some err, fs))

/-- The three staging steps of a `SaveManifest` call made on `fs` succeed: a
temp file can be created in the sandbox, and `Write` and `Close` meet no I/O
fault. -/
def StagingSucceeds (io : Staging) (store : ImageStore MS LS) (fs : FS) : Prop :=
  (ioutil.TempFile store.SandboxDir "" io.rand fs).1.2 = none ∧
    io.writeFault = none ∧ io.closeFault = none

instance (io : Staging) (store : ImageStore MS LS) (fs : FS) :
    Decidable (StagingSucceeds io store fs) := by
  unfold StagingSucceeds; exact inferInstance

/-! ## The scenario of the specification

Store root `data/store`, repository `myapp`, tag `v1`, with sub-stores that
keep their artifacts in `<root>/manifests` and `<root>/layers`. -/

/-- Opening of a sub-store whose namespace is the directory `<root>/<ns>`. -/
def openSubStore (ns : String) (rootDir : Path) (fs : FS) : Except GoError Path × FS :=
  match os.MkdirAll (rootDir ++ [ns]) 493 fs with
  | (some err, fs1) => (.error err, fs1)
  | (none, fs1) => (.ok (rootDir ++ [ns]), fs1)

/-- Place of the key `(repo, tag)` in the sub-store at `ms`. -/
def flatKeyPath (ms : Path) (repo tag : String) : Path := ms ++ [repo ++ ":" ++ tag]

/-- Modelled from the spec: the sub-store interface
`adopt(key, stagedFilePath) -> Ok | AlreadyExists | AdoptionError`, a hard link
of the staged file to the key's place made in one step. A key that is present
is answered with `EEXIST` and nothing changes. -/
def linkOnce (ms : Path) (repo tag : String) (src : Path) (fs : FS) : Option GoError × FS :=
  let dst := flatKeyPath ms repo tag
  if (stat fs dst).isSome then (some (.LinkError "link" src dst .EEXIST), fs)
  else
    match stat fs src with
    | some (.file perm content) => (none, fs ++ [(dst, .file perm content)])
    | _ => (some (.LinkError "link" src dst .ENOENT), fs)

/-- An adoption primitive that is refused by the filesystem. -/
def linkDenied (ms : Path) (repo tag : String) (src : Path) (fs : FS) : Option GoError × FS :=
  (some (.LinkError "link" src (flatKeyPath ms repo tag) .EACCES), fs)

/-- Collaborators of the scenario. A manifest is given by its encoding; `none`
stands for a value that `json.Marshal` rejects. -/
def scenarioDeps : Deps (Option Bytes) (String × String) Path Path where
  Marshal := fun m =>
    match m with
    | some b => .ok b
    | none => .error (.errorString "json: unsupported value")
  GetRepository := fun name => name.1
  GetTag := fun name => name.2
  NewManifestStore := openSubStore "manifests"
  NewLayerTarStore := openSubStore "layers"
  LinkStoreFileFrom := linkOnce

def scenarioRoot : Path := ["data", "store"]

/-- Fresh store root: no `sandbox/` yet. -/
def scenarioFS : FS :=
  [([], .dir 493), (["data"], .dir 493), (["data", "store"], .dir 493)]

/-- Store root on which a regular file takes the place of the manifest
namespace. -/
def blockedFS : FS :=
  [([], .dir 493), (["data"], .dir 493), (["data", "store"], .dir 493),
   (["data", "store", "manifests"], .file 420 [])]

/-- Random draws `"0"`, `"1"`, ... -/
def scenarioRand : Nat → String := fun i => toString i

def scenarioStore : ImageStore Path Path where
  RootDir := ["data", "store"]
  SandboxDir := ["data", "store", "sandbox", "sandbox0"]
  Manifests := ["data", "store", "manifests"]
  Layers := ["data", "store", "layers"]

/-- Filesystem after `NewImageStore` on the fresh root. -/
def readyFS : FS :=
  [([], .dir 493), (["data"], .dir 493), (["data", "store"], .dir 493),
   (["data", "store", "sandbox"], .dir 493),
   (["data", "store", "sandbox", "sandbox0"], .dir 448),
   (["data", "store", "manifests"], .dir 493),
   (["data", "store", "layers"], .dir 493)]

/-- Filesystem after `CleanupSandbox` on `readyFS`. -/
def tornDownFS : FS :=
  [([], .dir 493), (["data"], .dir 493), (["data", "store"], .dir 493),
   (["data", "store", "manifests"], .dir 493),
   (["data", "store", "layers"], .dir 493)]

/-- The manifest `{}`. -/
def scenarioManifest : Option Bytes := some [123, 125]

def scenarioName : String × String := ("myapp", "v1")

/-- Staging without I/O faults. -/
def calm : Staging where
  rand := scenarioRand
  writeFault := none
  closeFault := none

/-- Staging on a full disk: `Write` stores nothing and reports `ENOSPC`. -/
def diskFull : Staging where
  rand := scenarioRand
  writeFault := some (0, .ENOSPC)
  closeFault := none

/-- The scenario's collaborators with an adoption primitive that is refused. -/
def deniedDeps : Deps (Option Bytes) (String × String) Path Path :=
  { scenarioDeps with LinkStoreFileFrom := linkDenied }

/-- The temp file of the first `SaveManifest` call of the scenario. -/
def stagedPath : Path := ["data", "store", "sandbox", "sandbox0", "0"]

/-- Place of the key `(myapp, v1)` in the scenario's manifest store. -/
def committedPath : Path := ["data", "store", "manifests", "myapp:v1"]

/-- Filesystem after the staging steps of the first `SaveManifest` call. -/
def stagedFS : FS := readyFS ++ [(stagedPath, .file 384 [123, 125])]

/-- Filesystem after the first `SaveManifest` call of the scenario. -/
def committedFS : FS := stagedFS ++ [(committedPath, .file 384 [123, 125])]

/-- The temp file of a second `SaveManifest` call of the scenario. -/
def stagedPath1 : Path := ["data", "store", "sandbox", "sandbox0", "1"]

/-- Sandbox of a second construction on the scenario's root. -/
def secondStore : ImageStore Path Path where
  RootDir := ["data", "store"]
  SandboxDir := ["data", "store", "sandbox", "sandbox1"]
  Manifests := ["data", "store", "manifests"]
  Layers := ["data", "store", "layers"]

/-- Store root on which a regular file takes the place of `sandbox/`. -/
def sandboxIsFileFS : FS :=
  [([], .dir 493), (["data"], .dir 493), (["data", "store"], .dir 493),
   (["data", "store", "sandbox"], .file 420 [])]

/-- Filesystem after a construction on the root that `CleanupSandbox` has
cleaned: the sandbox parent and a sandbox of the old name are back. -/
def rebuiltFS : FS :=
  tornDownFS ++ [(["data", "store", "sandbox"], .dir 493),
    (["data", "store", "sandbox", "sandbox0"], .dir 448)]

/-- Store root whose `sandbox/` exists but is read-only (mode 0555). -/
def lockedSandboxFS : FS :=
  [([], .dir 493), (["data"], .dir 493), (["data", "store"], .dir 493),
   (["data", "store", "sandbox"], .dir 365)]

/-- Store root on which a regular file takes the place of the layer namespace. -/
def blockedLayersFS : FS :=
  [([], .dir 493), (["data"], .dir 493), (["data", "store"], .dir 493),
   (["data", "store", "layers"], .file 420 [])]

/-- A regular file stands in the place of the store root. -/
def rootIsFileFS : FS :=
  [([], .dir 493), (["data"], .dir 493), (["data", "store"], .file 420 [])]

/-! ## Facts about the filesystem model -/

theorem stat_append_of_some {fs : FS} {p : Path} {n : Node} (l : FS)
    (h : stat fs p = some n) : stat (fs ++ l) p = some n := by
  induction fs with
  | nil => simp [stat] at h
  | cons e rest ih =>
    obtain ⟨q, m⟩ := e
    simp only [List.cons_append, stat] at h ⊢
    split
    · rename_i hq; simpa [hq] using h
    · rename_i hq; simp only [hq, if_false] at h; exact ih h

theorem stat_append_of_none {fs : FS} {p : Path} (l : FS)
    (h : stat fs p = none) : stat (fs ++ l) p = stat l p := by
  induction fs with
  | nil => rfl
  | cons e rest ih =>
    obtain ⟨q, m⟩ := e
    simp only [List.cons_append, stat] at h ⊢
    split
    · rename_i hq; simp [hq] at h
    · rename_i hq; simp only [hq, if_false] at h; exact ih h

theorem stat_single (p q : Path) (n : Node) :
    stat [(p, n)] q = if p = q then some n else none := by
  simp [stat]

theorem stat_eq_none_iff {fs : FS} {p : Path} :
    stat fs p = none ↔ ∀ e ∈ fs, e.1 ≠ p := by
  induction fs with
  | nil => simp [stat]
  | cons e rest ih =>
    obtain ⟨q, m⟩ := e
    simp only [stat, List.mem_cons, forall_eq_or_imp]
    by_cases hq : q = p
    · simp only [hq, if_true]
      constructor
      · intro h; cases h
      · intro h; exact absurd rfl h.1
    · simp only [hq, if_false, ih]
      constructor
      · intro h; exact ⟨hq, h⟩
      · intro h; exact h.2

theorem stat_some_mem {fs : FS} {p : Path} {n : Node} (h : stat fs p = some n) :
    (p, n) ∈ fs := by
  induction fs with
  | nil => simp [stat] at h
  | cons e rest ih =>
    obtain ⟨q, m⟩ := e
    simp only [stat] at h
    split at h
    · rename_i hq
      simp only [Option.some.injEq] at h
      simp [hq, h]
    · exact List.mem_cons_of_mem _ (ih h)

/-- Filtering on the path keeps what `stat` sees at the paths that pass. -/
theorem stat_filter (keep : Path → Bool) (fs : FS) (p : Path) :
    stat (fs.filter (fun e => keep e.1)) p = if keep p then stat fs p else none := by
  induction fs with
  | nil => simp [stat]
  | cons e rest ih =>
    obtain ⟨q, m⟩ := e
    by_cases hk : keep q = true
    · rw [List.filter_cons_of_pos (by simpa using hk)]
      simp only [stat]
      by_cases hq : q = p
      · subst hq; simp [hk]
      · simp only [hq, if_false]; exact ih
    · rw [List.filter_cons_of_neg (by simpa using hk)]
      simp only [stat]
      by_cases hq : q = p
      · subst hq
        simp only [Bool.not_eq_true] at hk
        simp [hk, ih]
      · simp only [hq, if_false]; exact ih

/-! ### Path resolution -/

theorem notDirErrno_range {fs : FS} {q : Path} {errno : Errno}
    (h : notDirErrno fs q = some errno) : errno = .ENOENT ∨ errno = .ENOTDIR := by
  unfold notDirErrno at h
  split at h
  · cases h
  · simp only [Option.some.injEq] at h; exact Or.inr h.symm
  · simp only [Option.some.injEq] at h; exact Or.inl h.symm

theorem notDirErrno_eq_none {fs : FS} {q : Path} :
    notDirErrno fs q = none ↔ isDir fs q = true := by
  unfold notDirErrno isDir
  cases hst : stat fs q with
  | none => simp
  | some n => cases n <;> simp

theorem notDirErrno_congr {fs fs1 : FS} {q : Path} (h : stat fs1 q = stat fs q) :
    notDirErrno fs1 q = notDirErrno fs q := by
  unfold notDirErrno
  rw [h]

theorem dirErrnoFrom_snoc (fs : FS) (c : String) :
    ∀ (rest : List String) (pre : Path),
      dirErrnoFrom fs pre (rest ++ [c]) =
        match dirErrnoFrom fs pre rest with
        | some errno => some errno
        | none => notDirErrno fs (pre ++ rest ++ [c]) := by
  intro rest
  induction rest with
  | nil =>
    intro pre
    simp only [List.nil_append, dirErrnoFrom, List.append_nil]
  | cons x rest ih =>
    intro pre
    show dirErrnoFrom fs pre (x :: (rest ++ [c])) = _
    simp only [dirErrnoFrom]
    cases notDirErrno fs pre with
    | some errno => rfl
    | none =>
      simp only
      rw [ih (pre ++ [x])]
      simp only [List.append_assoc, List.singleton_append]

/-- Resolution of `d ++ [c]` fails where that of `d` fails, or else at the
last component. -/
theorem dirErrno_snoc (fs : FS) (d : Path) (c : String) :
    dirErrno fs (d ++ [c]) =
      match dirErrno fs d with
      | some errno => some errno
      | none => notDirErrno fs (d ++ [c]) := by
  unfold dirErrno
  rw [dirErrnoFrom_snoc]
  simp only [List.nil_append]

theorem dirErrno_nil (fs : FS) : dirErrno fs [] = notDirErrno fs [] := rfl

/-- Resolution fails with `ENOENT` or `ENOTDIR` only. -/
theorem dirErrno_range {fs : FS} {errno : Errno} :
    ∀ d : Path, dirErrno fs d = some errno → errno = .ENOENT ∨ errno = .ENOTDIR := by
  intro d
  induction d using List.reverseRecOn with
  | nil => intro h; exact notDirErrno_range h
  | append_singleton d c ih =>
    intro h
    rw [dirErrno_snoc] at h
    cases hd : dirErrno fs d with
    | some e =>
      rw [hd] at h
      simp only [Option.some.injEq] at h
      subst h
      exact ih hd
    | none =>
      rw [hd] at h
      exact notDirErrno_range h

/-- A path that resolves is a directory. -/
theorem isDir_of_dirErrno_none {fs : FS} {d : Path} (h : dirErrno fs d = none) :
    isDir fs d = true := by
  induction d using List.reverseRecOn with
  | nil => exact notDirErrno_eq_none.mp h
  | append_singleton d c _ =>
    rw [dirErrno_snoc] at h
    cases hd : dirErrno fs d with
    | some e => rw [hd] at h; cases h
    | none => rw [hd] at h; exact notDirErrno_eq_none.mp h

/-- A path with no directory at it does not resolve. -/
theorem dirErrno_of_stat_none {fs : FS} {d : Path} (h : stat fs d = none) :
    ∃ errno, dirErrno fs d = some errno ∧ (errno = .ENOENT ∨ errno = .ENOTDIR) := by
  cases hd : dirErrno fs d with
  | none =>
    have := isDir_of_dirErrno_none hd
    simp [isDir, h] at this
  | some errno => exact ⟨errno, rfl, dirErrno_range d hd⟩

/-- Resolution of `d` reads the filesystem at the prefixes of `d` only. -/
theorem dirErrno_congr {fs fs1 : FS} :
    ∀ d : Path, (∀ q, q <+: d → stat fs1 q = stat fs q) → dirErrno fs1 d = dirErrno fs d := by
  intro d
  induction d using List.reverseRecOn with
  | nil =>
    intro h
    exact notDirErrno_congr (h [] (List.prefix_refl _))
  | append_singleton d c ih =>
    intro h
    rw [dirErrno_snoc, dirErrno_snoc,
      ih (fun q hq => h q (hq.trans (List.prefix_append _ _))),
      notDirErrno_congr (h _ (List.prefix_refl _))]

/-! ### Creation of entries -/

theorem createEntry_err {op : String} {p : Path} {node : Node} {fs fs1 : FS} {err : GoError}
    (h : createEntry op p node fs = (some err, fs1)) : fs1 = fs := by
  unfold createEntry at h
  split at h
  · simp only [Prod.mk.injEq] at h; exact h.2.symm
  · split at h
    · simp only [Prod.mk.injEq] at h; exact h.2.symm
    · split at h
      · simp at h
      · simp only [Prod.mk.injEq] at h; exact h.2.symm

/-- A successful creation: the name was free, its parent is a writable
directory, and exactly one entry is added. -/
theorem createEntry_ok {op : String} {p : Path} {node : Node} {fs fs1 : FS}
    (h : createEntry op p node fs = (none, fs1)) :
    stat fs p = none ∧ writableDir fs p.dropLast = true ∧ fs1 = fs ++ [(p, node)] := by
  unfold createEntry at h
  split at h
  · simp at h
  · split at h
    · simp at h
    · rename_i hfree
      split at h
      · rename_i hw
        simp only [Prod.mk.injEq, true_and] at h
        exact ⟨by simpa using hfree, hw, h.symm⟩
      · simp at h

/-- Creation under a path that does not resolve fails with the errno of the
resolution and changes nothing. -/
theorem createEntry_unresolved (op : String) (node : Node) {p : Path} {fs : FS}
    {errno : Errno} (h : dirErrno fs p.dropLast = some errno) :
    createEntry op p node fs = (some (.PathError op p errno), fs) := by
  unfold createEntry
  rw [h]

theorem stat_createEntry_ok {op : String} {p : Path} {node : Node} {fs fs1 : FS}
    (h : createEntry op p node fs = (none, fs1)) : stat fs1 p = some node := by
  obtain ⟨hfree, _, rfl⟩ := createEntry_ok h
  rw [stat_append_of_none _ hfree, stat_single]
  simp

/-- Creation never disturbs an entry that is already there. -/
theorem stat_createEntry_mono {op : String} {p q : Path} {node n : Node} {fs fs1 : FS}
    {r : Option GoError} (h : createEntry op p node fs = (r, fs1))
    (hq : stat fs q = some n) : stat fs1 q = some n := by
  cases r with
  | some err => rw [createEntry_err h]; exact hq
  | none =>
    obtain ⟨_, _, rfl⟩ := createEntry_ok h
    exact stat_append_of_some _ hq

theorem written_fst (f : Path) (b : Bytes) (e : Path × Node) : (written f b e).1 = e.1 := by
  obtain ⟨q, n⟩ := e
  cases n with
  | dir perm => rfl
  | file perm c =>
    unfold written
    simp only
    split <;> rfl

theorem written_dir (f : Path) (b : Bytes) (q : Path) (perm : Nat) :
    written f b (q, .dir perm) = (q, .dir perm) := rfl

theorem written_of_ne (f : Path) (b : Bytes) {e : Path × Node} (h : e.1 ≠ f) :
    written f b e = e := by
  obtain ⟨q, n⟩ := e
  cases n with
  | dir perm => rfl
  | file perm c =>
    unfold written
    simp only
    rw [if_neg h]

theorem appendContent_of_absent {f : Path} {fs : FS} (b : Bytes)
    (h : ∀ e ∈ fs, e.1 ≠ f) : appendContent f b fs = fs := by
  unfold appendContent
  conv_rhs => rw [← List.map_id fs]
  apply List.map_congr_left
  intro e he
  rw [written_of_ne f b (h e he)]
  rfl

theorem appendContent_append (f : Path) (b : Bytes) (fs l : FS) :
    appendContent f b (fs ++ l) = appendContent f b fs ++ appendContent f b l := by
  simp [appendContent]

theorem appendContent_new_file (f : Path) (b : Bytes) (perm : Nat) :
    appendContent f b [(f, .file perm [])] = [(f, .file perm b)] := by
  simp [appendContent, written]

/-- The retry loop of `ioutil.TempFile` ends without error only by creating a
file named `dir/(pfx ++ rand j)` for one of its draws. -/
theorem tempFileLoop_ok (dir : Path) (pfx : String) (rand : Nat → String) :
    ∀ (fuel i : Nat) (last : Option GoError) (fs fs1 : FS) (f : Option Path),
      (last.isSome = true ∨ 0 < fuel) →
      ioutil.tempFileLoop dir pfx rand fuel i last fs = ((f, none), fs1) →
      ∃ j, f = some (dir ++ [pfx ++ rand j]) ∧
        createEntry "open" (dir ++ [pfx ++ rand j]) (.file 384 []) fs = (none, fs1) := by
  intro fuel
  induction fuel with
  | zero =>
    intro i last fs fs1 f hl h
    simp only [ioutil.tempFileLoop, Prod.mk.injEq] at h
    rcases hl with hl | hl
    · rw [h.1.2] at hl; simp at hl
    · omega
  | succ fuel ih =>
    intro i last fs fs1 f _ h
    simp only [ioutil.tempFileLoop] at h
    split at h
    · rename_i fs2 hc
      simp only [Prod.mk.injEq, and_true] at h
      exact ⟨i, h.1.symm, by rw [hc, h.2]⟩
    · rename_i err fs2 hc
      have hfs : fs2 = fs := createEntry_err hc
      subst hfs
      split at h
      · exact ih (i + 1) (some err) fs2 fs1 f (Or.inl rfl) h
      · simp at h

/-- A successful `ioutil.TempFile` in a named directory: the file is new, sits
directly in that directory, is empty, and is the only entry added. -/
theorem TempFile_ok {dir : Path} {pattern : String} {rand : Nat → String} {fs fs1 : FS}
    {f : Option Path} (hdir : dir ≠ [])
    (h : ioutil.TempFile dir pattern rand fs = ((f, none), fs1)) :
    ∃ name, f = some (dir ++ [name]) ∧ stat fs (dir ++ [name]) = none ∧
      writableDir fs dir = true ∧ fs1 = fs ++ [(dir ++ [name], .file 384 [])] := by
  unfold ioutil.TempFile at h
  simp only [hdir, if_false] at h
  obtain ⟨j, hf, hc⟩ := tempFileLoop_ok dir pattern rand 10000 0 none fs fs1 f
    (Or.inr (by decide)) h
  obtain ⟨hfree, hw, hfs⟩ := createEntry_ok hc
  refine ⟨pattern ++ rand j, hf, hfree, ?_, hfs⟩
  simpa using hw

/-- A `TempFile` that fails leaves the filesystem as it was. -/
theorem tempFileLoop_err (dir : Path) (pfx : String) (rand : Nat → String) :
    ∀ (fuel i : Nat) (last : Option GoError) (fs fs1 : FS) (f : Option Path) (err : GoError),
      ioutil.tempFileLoop dir pfx rand fuel i last fs = ((f, some err), fs1) → fs1 = fs := by
  intro fuel
  induction fuel with
  | zero =>
    intro i last fs fs1 f err h
    simp only [ioutil.tempFileLoop, Prod.mk.injEq] at h
    exact h.2.symm
  | succ fuel ih =>
    intro i last fs fs1 f err h
    simp only [ioutil.tempFileLoop] at h
    split at h
    · simp at h
    · rename_i e fs2 hc
      have hfs : fs2 = fs := createEntry_err hc
      subst hfs
      split at h
      · exact ih (i + 1) (some e) fs2 fs1 f err h
      · simp only [Prod.mk.injEq] at h; exact h.2.symm

/-- Once the three staging steps have succeeded, `SaveManifest` is the
adoption call followed by the classification of its answer. -/
theorem SaveManifest_of_staged (d : Deps M N MS LS) (io : Staging) (store : ImageStore MS LS)
    (m : M) (n : N) {fs fs1 fs2 fs3 : FS} {js : Bytes} {f : Option Path} {k : Nat}
    (hm : d.Marshal m = .ok js)
    (hs : ioutil.TempFile store.SandboxDir "" io.rand fs = ((f, none), fs1))
    (hw : File.Write f js io.writeFault fs1 = ((k, none), fs2))
    (hc : File.Close f io.closeFault fs2 = (none, fs3)) :
    store.SaveManifest d io m n fs =
      commitOutcome (d.LinkStoreFileFrom store.Manifests (d.GetRepository n) (d.GetTag n)
        (File.Name f) fs3) := by
  unfold ImageStore.SaveManifest
  simp only [hm, hs, hw, hc, commitOutcome]

/-- C1: when JSON encoding and the staging steps (create the temp file, write,
close) succeed, `SaveManifest` returns an error if and only if
`Manifests.LinkStoreFileFrom` returns a non-nil error that `os.IsExist` rejects;
an already-exists answer gives `nil`, and any other adoption failure comes back
as the commit error whose text is the commit prefix followed by the text of the
underlying cause. -/
theorem SaveManifest_error_iff_adoption_failure (d : Deps M N MS LS) (io : Staging)
    (store : ImageStore MS LS) (m : M) (n : N) (fs fs1 fs2 fs3 : FS) (js : Bytes)
    (f : Option Path) (k : Nat)
    (hm : d.Marshal m = .ok js)
    (hs : ioutil.TempFile store.SandboxDir "" io.rand fs = ((f, none), fs1))
    (hw : File.Write f js io.writeFault fs1 = ((k, none), fs2))
    (hc : File.Close f io.closeFault fs2 = (none, fs3)) :
    ((store.SaveManifest d io m n fs).1 ≠ none ↔
      ∃ err, (d.LinkStoreFileFrom store.Manifests (d.GetRepository n) (d.GetTag n)
        (File.Name f) fs3).1 = some err ∧ os.IsExist err = false) ∧
    (∀ err, (d.LinkStoreFileFrom store.Manifests (d.GetRepository n) (d.GetTag n)
        (File.Name f) fs3).1 = some err → os.IsExist err = true →
      (store.SaveManifest d io m n fs).1 = none) ∧
    (∀ err, (d.LinkStoreFileFrom store.Manifests (d.GetRepository n) (d.GetTag n)
        (File.Name f) fs3).1 = some err → os.IsExist err = false →
      (store.SaveManifest d io m n fs).1 =
        some (.errorString ("commit replica manifest to store: " ++ err.Error))) := by
  rw [SaveManifest_of_staged d io store m n hm hs hw hc]
  generalize d.LinkStoreFileFrom store.Manifests (d.GetRepository n) (d.GetTag n)
    (File.Name f) fs3 = r
  obtain ⟨e, fs4⟩ := r
  cases e with
  | none => simp [commitOutcome]
  | some err =>
    cases hx : os.IsExist err <;> simp [commitOutcome, hx, fmt.Errorf]

/-- C3: when serializing the manifest fails, `SaveManifest` returns the encoding
error and the filesystem is the one it was given, whatever the adoption
primitive and the staging environment would have done: no temp file is created
and `LinkStoreFileFrom` has no part in the result. -/
theorem SaveManifest_marshal_error_no_io (d : Deps M N MS LS) (io : Staging)
    (store : ImageStore MS LS) (m : M) (n : N) (fs : FS) (err : GoError)
    (hm : d.Marshal m = .error err) :
    store.SaveManifest d io m n fs =
      (some (.errorString ("marshal manifest to JSON: " ++ err.Error)), fs) ∧
    ∀ (link : MS → String → String → Path → FS → Option GoError × FS) (io1 : Staging),
      store.SaveManifest { d with LinkStoreFileFrom := link } io1 m n fs =
        (some (.errorString ("marshal manifest to JSON: " ++ err.Error)), fs) := by
  constructor
  · unfold ImageStore.SaveManifest
    simp only [hm, fmt.Errorf]
  · intro link io1
    unfold ImageStore.SaveManifest
    simp only [hm, fmt.Errorf]

/-- C9: when a ready store reaches the adoption step, the path handed to
`Manifests.LinkStoreFileFrom` names a file that did not exist before the call,
lies directly inside `SandboxDir`, is the only entry added to the filesystem,
and holds exactly the bytes returned by `json.Marshal`; the key passed is
`(imageName.GetRepository(), imageName.GetTag())`. -/
theorem SaveManifest_hands_over_marshalled_file (d : Deps M N MS LS) (io : Staging)
    (store : ImageStore MS LS) (m : M) (n : N) (fs fs1 fs2 fs3 : FS) (js : Bytes)
    (f : Option Path) (k : Nat)
    (hready : store.Ready fs)
    (hm : d.Marshal m = .ok js)
    (hs : ioutil.TempFile store.SandboxDir "" io.rand fs = ((f, none), fs1))
    (hw : File.Write f js io.writeFault fs1 = ((k, none), fs2))
    (hc : File.Close f io.closeFault fs2 = (none, fs3)) :
    ∃ name : String,
      stat fs (store.SandboxDir ++ [name]) = none ∧
      fs3 = fs ++ [(store.SandboxDir ++ [name], .file 384 js)] ∧
      stat fs3 (store.SandboxDir ++ [name]) = some (.file 384 js) ∧
      ∀ link : MS → String → String → Path → FS → Option GoError × FS,
        store.SaveManifest { d with LinkStoreFileFrom := link } io m n fs =
          commitOutcome (link store.Manifests (d.GetRepository n) (d.GetTag n)
            (store.SandboxDir ++ [name]) fs3) := by
  have hdir : store.SandboxDir ≠ [] := by
    intro h0
    have h1 := hready.1
    rw [h0] at h1
    simp at h1
  obtain ⟨name, hf, hfree, _, hfs1⟩ := TempFile_ok hdir hs
  subst hf
  have hfs3 : fs3 = fs2 := by
    unfold File.Close at hc
    cases hcf : io.closeFault with
    | none => simp only [hcf, Prod.mk.injEq, true_and] at hc; exact hc.symm
    | some e => simp [hcf] at hc
  have hfs2 : fs2 = appendContent (store.SandboxDir ++ [name]) js fs1 := by
    unfold File.Write at hw
    cases hwf : io.writeFault with
    | none => simp only [hwf, Prod.mk.injEq, and_true] at hw; exact hw.2.symm
    | some e => simp [hwf] at hw
  have hfs : fs3 = fs ++ [(store.SandboxDir ++ [name], .file 384 js)] := by
    rw [hfs3, hfs2, hfs1, appendContent_append,
      appendContent_of_absent js (stat_eq_none_iff.mp hfree), appendContent_new_file]
  refine ⟨name, hfree, hfs, ?_, ?_⟩
  · rw [hfs, stat_append_of_none _ hfree, stat_single]
    simp
  · intro link
    have := SaveManifest_of_staged { d with LinkStoreFileFrom := link } io store m n
      hm hs hw hc
    simpa [File.Name] using this

/-! ### `os.RemoveAll` -/

theorem removeTree_snd (p : Path) (fs : FS) :
    (os.removeTree p fs).2 =
      fs.filter (fun e => !(atOrBelow p e.1 && removable fs e.1)) := by
  unfold os.removeTree
  simp only
  split
  · rfl
  · split <;> rfl

theorem removeTree_ok_none_left {p : Path} {fs fs1 : FS}
    (h : os.removeTree p fs = (none, fs1)) : ∀ e ∈ fs1, atOrBelow p e.1 = false := by
  unfold os.removeTree at h
  simp only at h
  split at h
  · simp at h
  · split at h
    · simp at h
    · rename_i hfind
      simp only [Prod.mk.injEq, true_and] at h
      subst h
      intro e he
      have := List.find?_eq_none.mp hfind e he
      simpa using this

theorem removeTree_of_absent {p : Path} {fs : FS}
    (h : ∀ e ∈ fs, atOrBelow p e.1 = false) : os.removeTree p fs = (none, fs) := by
  have hfilter : fs.filter (fun e => !(atOrBelow p e.1 && removable fs e.1)) = fs := by
    apply List.filter_eq_self.mpr
    intro e he
    simp [h e he]
  unfold os.removeTree
  simp only [hfilter]
  have hfind1 : fs.find? (fun e => atOrBelow p e.1 && !writableDir fs e.1.dropLast) = none := by
    apply List.find?_eq_none.mpr
    intro e he
    simp [h e he]
  have hfind : fs.find? (fun e => atOrBelow p e.1) = none := by
    apply List.find?_eq_none.mpr
    intro e he
    simp [h e he]
  rw [hfind1, hfind]

/-- With no regular file on the way to the parent of `p`, `RemoveAll p` is the
removal of the tree at `p`. -/
theorem RemoveAll_of_resolves {p : Path} {fs : FS}
    (h : dirErrno fs p.dropLast ≠ some .ENOTDIR) : os.RemoveAll p fs = os.removeTree p fs := by
  unfold os.RemoveAll
  split
  · rename_i heq; exact absurd heq h
  · rfl

/-- With a regular file on the way to the parent of `p`, `RemoveAll p` fails
and removes nothing. -/
theorem RemoveAll_of_ENOTDIR {p : Path} {fs : FS}
    (h : dirErrno fs p.dropLast = some .ENOTDIR) :
    ∃ err, os.RemoveAll p fs = (some err, fs) := by
  unfold os.RemoveAll
  rw [h]
  simp only
  split
  · exact ⟨_, rfl⟩
  · exact ⟨_, rfl⟩

/-- A `RemoveAll p` that reports no error met no regular file on the way and
was the removal of the tree at `p`. -/
theorem RemoveAll_ok {p : Path} {fs fs1 : FS} (h : os.RemoveAll p fs = (none, fs1)) :
    dirErrno fs p.dropLast ≠ some .ENOTDIR ∧ os.removeTree p fs = (none, fs1) := by
  by_cases hd : dirErrno fs p.dropLast = some .ENOTDIR
  · obtain ⟨err, herr⟩ := RemoveAll_of_ENOTDIR hd
    rw [herr] at h
    simp at h
  · exact ⟨hd, by rw [← RemoveAll_of_resolves hd]; exact h⟩

/-- Whatever its outcome, `RemoveAll p` leaves every path outside `p` as it was. -/
theorem stat_RemoveAll_outside (p q : Path) (fs : FS) (hq : atOrBelow p q = false) :
    stat (os.RemoveAll p fs).2 q = stat fs q := by
  by_cases hd : dirErrno fs p.dropLast = some .ENOTDIR
  · obtain ⟨err, herr⟩ := RemoveAll_of_ENOTDIR hd
    rw [herr]
  · rw [RemoveAll_of_resolves hd, removeTree_snd]
    have := stat_filter (fun x => !(atOrBelow p x && removable fs x)) fs q
    simp only [hq, Bool.false_and, Bool.not_false, if_true] at this
    exact this

/-- A `RemoveAll p` that reports no error has left no entry at or below `p`. -/
theorem RemoveAll_ok_none_left {p : Path} {fs fs1 : FS}
    (h : os.RemoveAll p fs = (none, fs1)) : ∀ e ∈ fs1, atOrBelow p e.1 = false :=
  removeTree_ok_none_left (RemoveAll_ok h).2

/-- A `RemoveAll p` that reports no error has removed exactly the entries at or
below `p`, keeping the others in place and in order. -/
theorem RemoveAll_ok_eq_filter {p : Path} {fs fs1 : FS}
    (h : os.RemoveAll p fs = (none, fs1)) :
    fs1 = fs.filter (fun e => !atOrBelow p e.1) := by
  have hleft := RemoveAll_ok_none_left h
  have hsnd : fs1 = (os.removeTree p fs).2 := by rw [(RemoveAll_ok h).2]
  rw [removeTree_snd] at hsnd
  rw [hsnd]
  apply List.filter_congr
  intro e he
  by_cases hb : atOrBelow p e.1 = true
  · by_cases hr : removable fs e.1 = true
    · simp [hb, hr]
    · exfalso
      have hmem : e ∈ fs1 := by
        rw [hsnd]
        exact List.mem_filter.mpr ⟨he, by simp [hb, hr]⟩
      have := hleft e hmem
      rw [hb] at this
      cases this
  · simp only [Bool.not_eq_true] at hb
    simp [hb]

/-- With nothing at or below `p` and no regular file on the way to its parent,
`RemoveAll p` reports no error and does nothing. -/
theorem RemoveAll_of_absent {p : Path} {fs : FS}
    (hd : dirErrno fs p.dropLast ≠ some .ENOTDIR)
    (h : ∀ e ∈ fs, atOrBelow p e.1 = false) : os.RemoveAll p fs = (none, fs) := by
  rw [RemoveAll_of_resolves hd]
  exact removeTree_of_absent h

/-- A successful `RemoveAll p` leaves the way to the parent of `p` as it was. -/
theorem dirErrno_RemoveAll_ok {p : Path} {fs fs1 : FS} (hp : p ≠ [])
    (h : os.RemoveAll p fs = (none, fs1)) :
    dirErrno fs1 p.dropLast = dirErrno fs p.dropLast := by
  apply dirErrno_congr
  intro q hq
  have hout : atOrBelow p q = false := by
    apply Bool.eq_false_iff.mpr
    intro hb
    have h1 := (List.isPrefixOf_iff_prefix.mp hb).length_le
    have h2 := hq.length_le
    have h3 : 0 < p.length := List.length_pos.mpr hp
    rw [List.length_dropLast] at h2
    omega
  have := stat_RemoveAll_outside p q fs hout
  rw [h] at this
  exact this

theorem absent_of_stat_none {p : Path} {fs : FS}
    (h : ∀ q, atOrBelow p q = true → stat fs q = none) :
    ∀ e ∈ fs, atOrBelow p e.1 = false := by
  intro e he
  by_contra hb
  simp only [Bool.not_eq_false] at hb
  exact stat_eq_none_iff.mp (h e.1 hb) e he rfl

theorem stat_none_of_absent {p : Path} {fs : FS}
    (h : ∀ e ∈ fs, atOrBelow p e.1 = false) :
    ∀ q, atOrBelow p q = true → stat fs q = none := by
  intro q hq
  apply stat_eq_none_iff.mpr
  intro e he heq
  have := h e he
  rw [heq, hq] at this
  cases this

/-! ### `CleanupSandbox` -/

theorem CleanupSandbox_ok_iff {rootDir : Path} {fs fs1 : FS} :
    CleanupSandbox rootDir fs = (none, fs1) ↔
      os.RemoveAll (rootDir ++ ["sandbox"]) fs = (none, fs1) := by
  unfold CleanupSandbox
  simp only
  generalize os.RemoveAll (rootDir ++ ["sandbox"]) fs = r
  obtain ⟨e, fs2⟩ := r
  cases e <;> simp

/-- In the listing of a directory tree, a path that is not found has nothing
below it. -/
theorem absent_of_parentsExist {p : Path} {fs : FS} (hwf : parentsExist fs = true)
    (hp : stat fs p = none) : ∀ e ∈ fs, atOrBelow p e.1 = false := by
  have key : ∀ r : List String, stat fs (p ++ r) = none := by
    intro r
    induction r using List.reverseRecOn with
    | nil => simpa using hp
    | append_singleton r x ih =>
      cases hst : stat fs (p ++ (r ++ [x])) with
      | none => rfl
      | some n =>
        exfalso
        have hmem := stat_some_mem hst
        have hpar := List.all_eq_true.mp hwf _ hmem
        simp only [Bool.or_eq_true, List.isEmpty_iff] at hpar
        rcases hpar with hnil | hdir
        · simp at hnil
        · rw [← List.append_assoc, List.dropLast_concat] at hdir
          simp [isDir, ih] at hdir
  intro e he
  apply Bool.eq_false_iff.mpr
  intro hb
  obtain ⟨r, hr⟩ := List.isPrefixOf_iff_prefix.mp hb
  have := key r
  rw [hr] at this
  exact stat_eq_none_iff.mp this e he rfl

/-- C7 (amended): `CleanupSandbox` is idempotent. If `CleanupSandbox(root)`
succeeds, the call that follows it returns no error and leaves the filesystem
unchanged. When `<root>/sandbox` does not exist (nothing is found at or below
it, which in the listing of a directory tree is the case as soon as
`<root>/sandbox` itself is not found) and no regular file stands in the place
of the store root or of one of its ancestors, `CleanupSandbox(root)` returns no
error and changes nothing. With such a regular file on the way it returns an
error and changes nothing. -/
theorem CleanupSandbox_idempotent (rootDir : Path) (fs : FS) :
    (∀ fs1, CleanupSandbox rootDir fs = (none, fs1) →
      CleanupSandbox rootDir fs1 = (none, fs1)) ∧
    (dirErrno fs rootDir ≠ some .ENOTDIR →
      (∀ q, atOrBelow (rootDir ++ ["sandbox"]) q = true → stat fs q = none) →
      CleanupSandbox rootDir fs = (none, fs)) ∧
    (dirErrno fs rootDir ≠ some .ENOTDIR → parentsExist fs = true →
      stat fs (rootDir ++ ["sandbox"]) = none →
      CleanupSandbox rootDir fs = (none, fs)) ∧
    (dirErrno fs rootDir = some .ENOTDIR →
      ∃ err, CleanupSandbox rootDir fs = (some err, fs)) := by
  have hparent : (rootDir ++ ["sandbox"]).dropLast = rootDir := List.dropLast_concat
  refine ⟨?_, ?_, ?_, ?_⟩
  · intro fs1 h
    rw [CleanupSandbox_ok_iff] at h ⊢
    have hd := (RemoveAll_ok h).1
    rw [← dirErrno_RemoveAll_ok (by simp) h] at hd
    exact RemoveAll_of_absent hd (RemoveAll_ok_none_left h)
  · intro hd h
    rw [CleanupSandbox_ok_iff]
    exact RemoveAll_of_absent (by rw [hparent]; exact hd) (absent_of_stat_none h)
  · intro hd hwf h
    rw [CleanupSandbox_ok_iff]
    exact RemoveAll_of_absent (by rw [hparent]; exact hd) (absent_of_parentsExist hwf h)
  · intro hd
    obtain ⟨err, herr⟩ := @RemoveAll_of_ENOTDIR (rootDir ++ ["sandbox"]) fs
      (by rw [hparent]; exact hd)
    unfold CleanupSandbox
    simp only [herr]
    exact ⟨_, rfl⟩

/-- C8: after a successful `CleanupSandbox(root)` no path at or below
`<root>/sandbox` exists, every path outside it (the store root and whatever the
sub-stores hold included) is found with the node and content it had before,
and the entries that remain are the old ones outside `<root>/sandbox`, in
their old order. -/
theorem CleanupSandbox_removes_only_sandbox (rootDir : Path) (fs fs1 : FS)
    (h : CleanupSandbox rootDir fs = (none, fs1)) :
    (∀ q, atOrBelow (rootDir ++ ["sandbox"]) q = true → stat fs1 q = none) ∧
    (∀ q, atOrBelow (rootDir ++ ["sandbox"]) q = false → stat fs1 q = stat fs q) ∧
    stat fs1 rootDir = stat fs rootDir ∧
    fs1 = fs.filter (fun e => !atOrBelow (rootDir ++ ["sandbox"]) e.1) := by
  rw [CleanupSandbox_ok_iff] at h
  have hout : ∀ q, atOrBelow (rootDir ++ ["sandbox"]) q = false → stat fs1 q = stat fs q := by
    intro q hq
    have := stat_RemoveAll_outside (rootDir ++ ["sandbox"]) q fs hq
    rw [h] at this
    exact this
  refine ⟨stat_none_of_absent (RemoveAll_ok_none_left h), hout, ?_, RemoveAll_ok_eq_filter h⟩
  apply hout
  unfold atOrBelow
  apply Bool.eq_false_iff.mpr
  intro hp
  have hpre := List.isPrefixOf_iff_prefix.mp hp
  have hlen := hpre.length_le
  simp at hlen

/-! ### `os.MkdirAll` and `ioutil.TempDir` -/

theorem stat_Mkdir_mono (p : Path) (perm : Nat) (fs : FS) {q : Path} {n : Node}
    (hq : stat fs q = some n) : stat (os.Mkdir p perm fs).2 q = some n := by
  have h : createEntry "mkdir" p (.dir perm) fs =
      ((os.Mkdir p perm fs).1, (os.Mkdir p perm fs).2) := rfl
  exact stat_createEntry_mono h hq

theorem mkdirOrFound_snd (p : Path) (perm : Nat) (fs : FS) :
    (os.mkdirOrFound p perm fs).2 = (os.Mkdir p perm fs).2 := by
  unfold os.mkdirOrFound
  split
  · rename_i err fs1 h
    rw [h]
    split <;> rfl
  · rename_i fs1 h
    rw [h]

theorem stat_mkdirOrFound_mono (p : Path) (perm : Nat) (fs : FS) {q : Path} {n : Node}
    (hq : stat fs q = some n) : stat (os.mkdirOrFound p perm fs).2 q = some n := by
  rw [mkdirOrFound_snd]
  exact stat_Mkdir_mono p perm fs hq

theorem isDir_mkdirOrFound_ok {p : Path} {perm : Nat} {fs fs1 : FS}
    (h : os.mkdirOrFound p perm fs = (none, fs1)) : isDir fs1 p = true := by
  unfold os.mkdirOrFound at h
  split at h
  · split at h
    · rename_i hd
      simp only [Prod.mk.injEq, true_and] at h
      rw [← h]
      exact hd
    · simp at h
  · rename_i fs2 hmk
    simp only [Prod.mk.injEq, true_and] at h
    subst h
    have := stat_createEntry_ok hmk
    simp [isDir, this]

/-- `MkdirAll` only adds entries: what `stat` found before is found after. -/
theorem stat_mkdirAllRev_mono (perm : Nat) (q : Path) (n : Node) :
    ∀ (rp : List String) (fs : FS), stat fs q = some n →
      stat (os.mkdirAllRev rp perm fs).2 q = some n := by
  intro rp
  induction rp with
  | nil =>
    intro fs hq
    unfold os.mkdirAllRev
    split
    · exact hq
    · exact hq
    · exact stat_mkdirOrFound_mono [] perm fs hq
  | cons c parentRev ih =>
    intro fs hq
    unfold os.mkdirAllRev
    simp only
    split
    · exact hq
    · exact hq
    · split
      · exact stat_mkdirOrFound_mono _ perm fs hq
      · have hrec := ih fs hq
        split
        · rename_i err fs1 hres
          rw [hres] at hrec
          exact hrec
        · rename_i fs1 hres
          rw [hres] at hrec
          exact stat_mkdirOrFound_mono _ perm fs1 hrec

theorem stat_MkdirAll_mono (p : Path) (perm : Nat) {q : Path} {n : Node} {fs : FS}
    (hq : stat fs q = some n) : stat (os.MkdirAll p perm fs).2 q = some n :=
  stat_mkdirAllRev_mono perm q n p.reverse fs hq

/-- A successful `MkdirAll p` leaves a directory at `p`. -/
theorem isDir_mkdirAllRev_ok (perm : Nat) :
    ∀ (rp : List String) (fs fs1 : FS), os.mkdirAllRev rp perm fs = (none, fs1) →
      isDir fs1 rp.reverse = true := by
  intro rp
  cases rp with
  | nil =>
    intro fs fs1 h
    unfold os.mkdirAllRev at h
    split at h
    · rename_i pp hst
      simp only [Prod.mk.injEq, true_and] at h
      subst h
      simp [isDir, hst]
    · simp at h
    · exact isDir_mkdirOrFound_ok h
  | cons c parentRev =>
    intro fs fs1 h
    unfold os.mkdirAllRev at h
    simp only at h
    split at h
    · rename_i pp hst
      simp only [Prod.mk.injEq, true_and] at h
      subst h
      simp only [isDir, hst]
    · simp at h
    · split at h
      · exact isDir_mkdirOrFound_ok h
      · split at h
        · simp at h
        · exact isDir_mkdirOrFound_ok h

theorem isDir_MkdirAll_ok {p : Path} {perm : Nat} {fs fs1 : FS}
    (h : os.MkdirAll p perm fs = (none, fs1)) : isDir fs1 p = true := by
  have := isDir_mkdirAllRev_ok perm p.reverse fs fs1 h
  simpa using this

/-- The retry loop of `ioutil.TempDir` ends without error only by creating a
directory named `dir/(pfx ++ rand j)` for one of its draws. -/
theorem tempDirLoop_ok (dir : Path) (pfx : String) (rand : Nat → String) :
    ∀ (fuel i : Nat) (last : Option GoError) (fs fs1 : FS) (p : Path),
      (last.isSome = true ∨ 0 < fuel) →
      ioutil.tempDirLoop dir pfx rand fuel i last fs = ((p, none), fs1) →
      ∃ j, p = dir ++ [pfx ++ rand j] ∧
        createEntry "mkdir" (dir ++ [pfx ++ rand j]) (.dir 448) fs = (none, fs1) := by
  intro fuel
  induction fuel with
  | zero =>
    intro i last fs fs1 p hl h
    simp only [ioutil.tempDirLoop, Prod.mk.injEq] at h
    rcases hl with hl | hl
    · rw [h.1.2] at hl; simp at hl
    · omega
  | succ fuel ih =>
    intro i last fs fs1 p _ h
    simp only [ioutil.tempDirLoop] at h
    split at h
    · rename_i fs2 hc
      simp only [Prod.mk.injEq, and_true] at h
      refine ⟨i, h.1.symm, ?_⟩
      rw [← h.2]
      exact hc
    · rename_i err fs2 hc
      have hfs : fs2 = fs := createEntry_err hc
      subst hfs
      split at h
      · exact ih (i + 1) (some err) fs2 fs1 p (Or.inl rfl) h
      · split at h <;> simp at h

/-- A successful `ioutil.TempDir` in a named directory: the result is a direct
child of that directory, did not exist before, and is the only entry added. -/
theorem TempDir_ok {dir : Path} {pfx : String} {rand : Nat → String} {fs fs1 : FS}
    {p : Path} (hdir : dir ≠ [])
    (h : ioutil.TempDir dir pfx rand fs = ((p, none), fs1)) :
    ∃ name, p = dir ++ [name] ∧ stat fs p = none ∧ fs1 = fs ++ [(p, .dir 448)] := by
  unfold ioutil.TempDir at h
  simp only [hdir, if_false] at h
  obtain ⟨j, hp, hc⟩ := tempDirLoop_ok dir pfx rand 10000 0 none fs fs1 p
    (Or.inr (by decide)) h
  obtain ⟨hfree, _, hfs⟩ := createEntry_ok hc
  subst hp
  exact ⟨pfx ++ rand j, rfl, hfree, hfs⟩

/-- A `TempDir` that fails leaves the filesystem as it was. -/
theorem tempDirLoop_err (dir : Path) (pfx : String) (rand : Nat → String) :
    ∀ (fuel i : Nat) (last : Option GoError) (fs fs1 : FS) (p : Path) (err : GoError),
      ioutil.tempDirLoop dir pfx rand fuel i last fs = ((p, some err), fs1) → fs1 = fs := by
  intro fuel
  induction fuel with
  | zero =>
    intro i last fs fs1 p err h
    simp only [ioutil.tempDirLoop, Prod.mk.injEq] at h
    exact h.2.symm
  | succ fuel ih =>
    intro i last fs fs1 p err h
    simp only [ioutil.tempDirLoop] at h
    split at h
    · simp at h
    · rename_i e fs2 hc
      have hfs : fs2 = fs := createEntry_err hc
      subst hfs
      split at h
      · exact ih (i + 1) (some e) fs2 fs1 p err h
      · split at h <;> (simp only [Prod.mk.injEq] at h; exact h.2.symm)

/-! ### Error messages -/

theorem hasPfx_append (pfx rest : String) : hasPfx pfx (pfx ++ rest) = true := by
  simp [hasPfx, String.data_append]

/-- Two formats of which neither starts with the other cannot both start the
same message. -/
theorem hasPfx_append_false (a b rest : String)
    (h1 : a.data.isPrefixOf b.data = false) (h2 : b.data.isPrefixOf a.data = false) :
    hasPfx a (b ++ rest) = false := by
  unfold hasPfx
  rw [String.data_append]
  apply Bool.eq_false_iff.mpr
  intro h
  have ha := List.isPrefixOf_iff_prefix.mp h
  have hb : b.data <+: b.data ++ rest.data := List.prefix_append _ _
  rcases List.prefix_or_prefix_of_prefix ha hb with hab | hba
  · have := List.isPrefixOf_iff_prefix.mpr hab
    rw [h1] at this
    cases this
  · have := List.isPrefixOf_iff_prefix.mpr hba
    rw [h2] at this
    cases this

theorem failedStep_parent (s : String) :
    failedStep ("init sandbox parent dir: " ++ s) = some 1 := by
  unfold failedStep
  rw [hasPfx_append]
  rfl

theorem failedStep_sandbox (s : String) : failedStep ("init sandbox dir: " ++ s) = some 2 := by
  unfold failedStep
  rw [hasPfx_append_false _ _ _ (by decide) (by decide), hasPfx_append]
  rfl

theorem failedStep_manifest (s : String) :
    failedStep ("init manifest store: " ++ s) = some 3 := by
  unfold failedStep
  rw [hasPfx_append_false _ _ _ (by decide) (by decide),
    hasPfx_append_false _ _ _ (by decide) (by decide), hasPfx_append]
  rfl

theorem failedStep_layer (s : String) : failedStep ("init layer store: " ++ s) = some 4 := by
  unfold failedStep
  rw [hasPfx_append_false _ _ _ (by decide) (by decide),
    hasPfx_append_false _ _ _ (by decide) (by decide),
    hasPfx_append_false _ _ _ (by decide) (by decide), hasPfx_append]
  rfl

theorem saveErrorKind_marshal (s : String) :
    saveErrorKind ("marshal manifest to JSON: " ++ s) = some .EncodingError := by
  unfold saveErrorKind
  rw [hasPfx_append]
  rfl

theorem saveErrorKind_create (s : String) :
    saveErrorKind ("create tmp manifest file: " ++ s) = some .StagingError := by
  unfold saveErrorKind
  rw [hasPfx_append_false _ _ _ (by decide) (by decide), hasPfx_append]
  rfl

/-! ### `NewImageStore` -/

/-- A construction that returns a store went through all four steps. -/
theorem NewImageStore_ok {d : Deps M N MS LS} {rand : Nat → String} {rootDir : Path}
    {fs fs4 : FS} {store : ImageStore MS LS} {e : Option GoError}
    (h : NewImageStore d rand rootDir fs = ((some store, e), fs4)) :
    ∃ fs1 fs2 fs3 m l,
      os.MkdirAll (rootDir ++ ["sandbox"]) 493 fs = (none, fs1) ∧
      ioutil.TempDir (rootDir ++ ["sandbox"]) "sandbox" rand fs1 =
        ((store.SandboxDir, none), fs2) ∧
      d.NewManifestStore rootDir fs2 = (.ok m, fs3) ∧
      d.NewLayerTarStore rootDir fs3 = (.ok l, fs4) ∧
      e = none ∧
      store = { RootDir := rootDir, SandboxDir := store.SandboxDir, Manifests := m,
                Layers := l } := by
  unfold NewImageStore at h
  simp only at h
  split at h
  · simp at h
  · rename_i fs1 h1
    split at h
    · simp at h
    · rename_i p fs2 h2
      split at h
      · simp at h
      · rename_i m fs3 h3
        split at h
        · simp at h
        · rename_i l fs5 h4
          simp only [Prod.mk.injEq, Option.some.injEq] at h
          obtain ⟨⟨hs, he⟩, hfs⟩ := h
          subst hs hfs
          exact ⟨fs1, fs2, fs3, m, l, h1, h2, h3, h4, he.symm, rfl⟩

/-- C5: `NewImageStore` runs its four steps in order (create `<root>/sandbox`,
create the unique sandbox dir, open the manifest store, open the layer store).
When a step fails after the earlier ones succeeded, the result is a nil store
with the error of that step, whose message is the step's prefix followed by the
cause, the filesystem is the one that step left, and the later steps have no
part in the result; a store with a nil error is returned exactly when all four
steps succeed, and the store is nil exactly when the error is not. -/
theorem NewImageStore_first_failing_step (d : Deps M N MS LS) (rand : Nat → String)
    (rootDir : Path) (fs : FS) :
    (∀ err fs1, os.MkdirAll (rootDir ++ ["sandbox"]) 493 fs = (some err, fs1) →
      ∀ (d1 : Deps M N MS LS) (rand1 : Nat → String),
        NewImageStore d1 rand1 rootDir fs =
          ((none, some (.errorString ("init sandbox parent dir: " ++ err.Error))), fs1) ∧
        failedStep ("init sandbox parent dir: " ++ err.Error) = some 1) ∧
    (∀ fs1 p err fs2, os.MkdirAll (rootDir ++ ["sandbox"]) 493 fs = (none, fs1) →
      ioutil.TempDir (rootDir ++ ["sandbox"]) "sandbox" rand fs1 = ((p, some err), fs2) →
      ∀ d1 : Deps M N MS LS,
        NewImageStore d1 rand rootDir fs =
          ((none, some (.errorString ("init sandbox dir: " ++ err.Error))), fs2) ∧
        failedStep ("init sandbox dir: " ++ err.Error) = some 2) ∧
    (∀ fs1 p fs2 err fs3, os.MkdirAll (rootDir ++ ["sandbox"]) 493 fs = (none, fs1) →
      ioutil.TempDir (rootDir ++ ["sandbox"]) "sandbox" rand fs1 = ((p, none), fs2) →
      d.NewManifestStore rootDir fs2 = (.error err, fs3) →
      ∀ newLayers : Path → FS → Except GoError LS × FS,
        NewImageStore { d with NewLayerTarStore := newLayers } rand rootDir fs =
          ((none, some (.errorString ("init manifest store: " ++ err.Error))), fs3) ∧
        failedStep ("init manifest store: " ++ err.Error) = some 3) ∧
    (∀ fs1 p fs2 m fs3 err fs4, os.MkdirAll (rootDir ++ ["sandbox"]) 493 fs = (none, fs1) →
      ioutil.TempDir (rootDir ++ ["sandbox"]) "sandbox" rand fs1 = ((p, none), fs2) →
      d.NewManifestStore rootDir fs2 = (.ok m, fs3) →
      d.NewLayerTarStore rootDir fs3 = (.error err, fs4) →
      NewImageStore d rand rootDir fs =
        ((none, some (.errorString ("init layer store: " ++ err.Error))), fs4) ∧
      failedStep ("init layer store: " ++ err.Error) = some 4) ∧
    (∀ fs1 p fs2 m fs3 l fs4, os.MkdirAll (rootDir ++ ["sandbox"]) 493 fs = (none, fs1) →
      ioutil.TempDir (rootDir ++ ["sandbox"]) "sandbox" rand fs1 = ((p, none), fs2) →
      d.NewManifestStore rootDir fs2 = (.ok m, fs3) →
      d.NewLayerTarStore rootDir fs3 = (.ok l, fs4) →
      NewImageStore d rand rootDir fs =
        ((some { RootDir := rootDir, SandboxDir := p, Manifests := m, Layers := l }, none),
          fs4)) ∧
    ((∃ store, (NewImageStore d rand rootDir fs).1 = (some store, none)) ↔
      ∃ fs1 p fs2 m fs3 l fs4, os.MkdirAll (rootDir ++ ["sandbox"]) 493 fs = (none, fs1) ∧
        ioutil.TempDir (rootDir ++ ["sandbox"]) "sandbox" rand fs1 = ((p, none), fs2) ∧
        d.NewManifestStore rootDir fs2 = (.ok m, fs3) ∧
        d.NewLayerTarStore rootDir fs3 = (.ok l, fs4)) ∧
    ((NewImageStore d rand rootDir fs).1.1 = none ↔
      (NewImageStore d rand rootDir fs).1.2 ≠ none) := by
  refine ⟨?_, ?_, ?_, ?_, ?_, ?_, ?_⟩
  · intro err fs1 h1 d1 rand1
    refine ⟨?_, failedStep_parent _⟩
    unfold NewImageStore
    simp only [h1, fmt.Errorf]
  · intro fs1 p err fs2 h1 h2 d1
    refine ⟨?_, failedStep_sandbox _⟩
    unfold NewImageStore
    simp only [h1, h2, fmt.Errorf]
  · intro fs1 p fs2 err fs3 h1 h2 h3 newLayers
    refine ⟨?_, failedStep_manifest _⟩
    unfold NewImageStore
    simp only [h1, h2, h3, fmt.Errorf]
  · intro fs1 p fs2 m fs3 err fs4 h1 h2 h3 h4
    refine ⟨?_, failedStep_layer _⟩
    unfold NewImageStore
    simp only [h1, h2, h3, h4, fmt.Errorf]
  · intro fs1 p fs2 m fs3 l fs4 h1 h2 h3 h4
    unfold NewImageStore
    simp only [h1, h2, h3, h4]
  · constructor
    · rintro ⟨store, hs⟩
      have hfull : NewImageStore d rand rootDir fs =
          ((some store, none), (NewImageStore d rand rootDir fs).2) := by rw [← hs]
      obtain ⟨fs1, fs2, fs3, m, l, h1, h2, h3, h4, _, _⟩ := NewImageStore_ok hfull
      exact ⟨fs1, store.SandboxDir, fs2, m, fs3, l, _, h1, h2, h3, h4⟩
    · rintro ⟨fs1, p, fs2, m, fs3, l, fs4, h1, h2, h3, h4⟩
      refine ⟨{ RootDir := rootDir, SandboxDir := p, Manifests := m, Layers := l }, ?_⟩
      unfold NewImageStore
      simp only [h1, h2, h3, h4]
  · unfold NewImageStore
    simp only
    split
    · simp
    · split
      · simp
      · split
        · simp
        · split <;> simp

theorem atOrBelow_append (p r : Path) : atOrBelow p (p ++ r) = true := by
  unfold atOrBelow
  exact List.isPrefixOf_iff_prefix.mpr (List.prefix_append _ _)

theorem isDir_of_stat {fs : FS} {p : Path} {perm : Nat} (h : stat fs p = some (.dir perm)) :
    isDir fs p = true := by
  simp [isDir, h]

/-- What a successful construction leaves behind: the sandbox was not there
before, is a direct child of `<root>/sandbox`, and is a directory of mode 0700
once the sub-stores have been opened. -/
theorem NewImageStore_sandbox {d : Deps M N MS LS} {rand : Nat → String} {rootDir : Path}
    {fs fs4 : FS} {store : ImageStore MS LS} (hkeep : d.SubStoresKeepSandbox)
    (h : NewImageStore d rand rootDir fs = ((some store, none), fs4)) :
    ∃ name fs1, store.SandboxDir = rootDir ++ ["sandbox"] ++ [name] ∧
      store.RootDir = rootDir ∧
      os.MkdirAll (rootDir ++ ["sandbox"]) 493 fs = (none, fs1) ∧
      stat fs1 store.SandboxDir = none ∧
      stat fs4 store.SandboxDir = some (.dir 448) := by
  obtain ⟨fs1, fs2, fs3, m, l, h1, h2, h3, h4, _, hstore⟩ := NewImageStore_ok h
  obtain ⟨name, hp, hfree, hfs2⟩ := TempDir_ok (by simp) h2
  refine ⟨name, fs1, hp, by rw [hstore], h1, hfree, ?_⟩
  have hin : atOrBelow (rootDir ++ ["sandbox"]) store.SandboxDir = true := by
    rw [hp]; exact atOrBelow_append _ _
  have h2s : stat fs2 store.SandboxDir = some (.dir 448) := by
    rw [hfs2, stat_append_of_none _ hfree, stat_single]
    simp
  have h3s : stat fs3 store.SandboxDir = some (.dir 448) := by
    have := (hkeep rootDir fs2).1 _ _ hin h2s
    rwa [h3] at this
  have := (hkeep rootDir fs3).2 _ _ hin h3s
  rwa [h4] at this

/-- C6: two successful `NewImageStore` calls on the same root, the second made
on the filesystem the first one left, return stores whose `SandboxDir` values
differ; each is a direct child of `<root>/sandbox`, and both exist as
directories after the second construction (the first also right after the
first). The sub-store constructors are taken to leave `<root>/sandbox` alone. -/
theorem NewImageStore_twice_distinct_sandboxes (d : Deps M N MS LS)
    (rand1 rand2 : Nat → String) (rootDir : Path) (fs fs1 fs2 : FS)
    (s1 s2 : ImageStore MS LS) (hkeep : d.SubStoresKeepSandbox)
    (h1 : NewImageStore d rand1 rootDir fs = ((some s1, none), fs1))
    (h2 : NewImageStore d rand2 rootDir fs1 = ((some s2, none), fs2)) :
    s1.SandboxDir ≠ s2.SandboxDir ∧
    (∃ name1, s1.SandboxDir = rootDir ++ ["sandbox"] ++ [name1]) ∧
    (∃ name2, s2.SandboxDir = rootDir ++ ["sandbox"] ++ [name2]) ∧
    isDir fs1 s1.SandboxDir = true ∧
    isDir fs2 s1.SandboxDir = true ∧
    isDir fs2 s2.SandboxDir = true := by
  obtain ⟨name1, _, hp1, _, _, _, hs1⟩ := NewImageStore_sandbox hkeep h1
  obtain ⟨name2, fsA, hp2, _, hmk, hfree2, hs2⟩ := NewImageStore_sandbox hkeep h2
  have hs1A : stat fsA s1.SandboxDir = some (.dir 448) := by
    have := stat_MkdirAll_mono (rootDir ++ ["sandbox"]) 493 hs1
    rwa [hmk] at this
  have hne : s1.SandboxDir ≠ s2.SandboxDir := by
    intro heq
    rw [heq, hfree2] at hs1A
    cases hs1A
  refine ⟨hne, ⟨name1, hp1⟩, ⟨name2, hp2⟩, isDir_of_stat hs1, ?_, isDir_of_stat hs2⟩
  obtain ⟨fsA1, fsB, fsC, m, l, hmk1, htd, hms, hls, _, _⟩ := NewImageStore_ok h2
  have hfsA : fsA1 = fsA := by
    rw [hmk] at hmk1
    simp only [Prod.mk.injEq, true_and] at hmk1
    exact hmk1.symm
  subst hfsA
  obtain ⟨_, _, _, hfsB⟩ := TempDir_ok (by simp) htd
  have hin : atOrBelow (rootDir ++ ["sandbox"]) s1.SandboxDir = true := by
    rw [hp1]; exact atOrBelow_append _ _
  have hB : stat fsB s1.SandboxDir = some (.dir 448) := by
    rw [hfsB]; exact stat_append_of_some _ hs1A
  have hC : stat fsC s1.SandboxDir = some (.dir 448) := by
    have := (hkeep rootDir fsB).1 _ _ hin hB
    rwa [hms] at this
  have hD := (hkeep rootDir fsC).2 _ _ hin hC
  rw [hls] at hD
  exact isDir_of_stat hD

/-! ### What the operations never remove -/

theorem stat_tempDirLoop_mono (dir : Path) (pfx : String) (rand : Nat → String)
    {q : Path} {n : Node} :
    ∀ (fuel i : Nat) (last : Option GoError) (fs : FS), stat fs q = some n →
      stat (ioutil.tempDirLoop dir pfx rand fuel i last fs).2 q = some n := by
  intro fuel
  induction fuel with
  | zero => intro i last fs hq; exact hq
  | succ fuel ih =>
    intro i last fs hq
    have hmk := stat_Mkdir_mono (dir ++ [pfx ++ rand i]) 448 fs hq
    simp only [ioutil.tempDirLoop]
    split
    · rename_i fs1 h; rw [h] at hmk; exact hmk
    · rename_i err fs1 h
      rw [h] at hmk
      split
      · exact ih _ _ _ hmk
      · split <;> exact hmk

theorem stat_TempDir_mono (dir : Path) (pfx : String) (rand : Nat → String) {fs : FS}
    {q : Path} {n : Node} (hq : stat fs q = some n) :
    stat (ioutil.TempDir dir pfx rand fs).2 q = some n :=
  stat_tempDirLoop_mono _ pfx rand 10000 0 none fs hq

theorem stat_tempFileLoop_mono (dir : Path) (pfx : String) (rand : Nat → String)
    {q : Path} {n : Node} :
    ∀ (fuel i : Nat) (last : Option GoError) (fs : FS), stat fs q = some n →
      stat (ioutil.tempFileLoop dir pfx rand fuel i last fs).2 q = some n := by
  intro fuel
  induction fuel with
  | zero => intro i last fs hq; exact hq
  | succ fuel ih =>
    intro i last fs hq
    simp only [ioutil.tempFileLoop]
    split
    · rename_i fs1 h; exact stat_createEntry_mono h hq
    · rename_i err fs1 h
      have hmk := stat_createEntry_mono h hq
      split
      · exact ih _ _ _ hmk
      · exact hmk

theorem stat_TempFile_mono (dir : Path) (pattern : String) (rand : Nat → String) {fs : FS}
    {q : Path} {n : Node} (hq : stat fs q = some n) :
    stat (ioutil.TempFile dir pattern rand fs).2 q = some n :=
  stat_tempFileLoop_mono _ pattern rand 10000 0 none fs hq

/-- Writing to a file leaves every directory as it is. -/
theorem stat_appendContent_dir (f : Path) (b : Bytes) {fs : FS} {q : Path} {perm : Nat}
    (hq : stat fs q = some (.dir perm)) :
    stat (appendContent f b fs) q = some (.dir perm) := by
  induction fs with
  | nil => simp [stat] at hq
  | cons e rest ih =>
    obtain ⟨p, node⟩ := e
    have hfst := written_fst f b (p, node)
    unfold appendContent at ih ⊢
    rw [List.map_cons]
    rcases hw : written f b (p, node) with ⟨p1, node1⟩
    rw [hw] at hfst
    simp only at hfst
    subst hfst
    simp only [stat] at hq ⊢
    by_cases hp : p1 = q
    · simp only [hp, if_true, Option.some.injEq] at hq ⊢
      subst hq
      rw [written_dir] at hw
      simp only [Prod.mk.injEq] at hw
      exact hw.2.symm
    · simp only [hp, if_false] at hq ⊢
      exact ih hq

/-- A construction on `rootDir` keeps whatever exists at or below
`<rootDir>/sandbox`. -/
theorem NewImageStore_keeps_sandbox (d : Deps M N MS LS) (rand : Nat → String)
    (rootDir : Path) (fs : FS) (hkeep : d.SubStoresKeepSandbox) :
    KeepsSandbox rootDir fs (NewImageStore d rand rootDir fs).2 := by
  intro q n hin hq
  have h1 := stat_MkdirAll_mono (rootDir ++ ["sandbox"]) 493 hq
  unfold NewImageStore
  simp only
  split
  · rename_i err fs1 hmk; rw [hmk] at h1; exact h1
  · rename_i fs1 hmk
    rw [hmk] at h1
    have h2 := stat_TempDir_mono (rootDir ++ ["sandbox"]) "sandbox" rand h1
    split
    · rename_i p err fs2 htd; rw [htd] at h2; exact h2
    · rename_i p fs2 htd
      rw [htd] at h2
      have h3 := (hkeep rootDir fs2).1 q n hin h2
      split
      · rename_i err fs3 hms; rw [hms] at h3; exact h3
      · rename_i m fs3 hms
        rw [hms] at h3
        have h4 := (hkeep rootDir fs3).2 q n hin h3
        split
        · rename_i err fs4 hls; rw [hls] at h4; exact h4
        · rename_i l fs4 hls; rw [hls] at h4; exact h4

theorem stat_Write_dir (f : Option Path) (b : Bytes) (wf : Option (Nat × Errno)) {fs : FS}
    {q : Path} {perm : Nat} (hq : stat fs q = some (.dir perm)) :
    stat (File.Write f b wf fs).2 q = some (.dir perm) := by
  unfold File.Write
  cases f with
  | none => exact hq
  | some name =>
    cases wf with
    | none => exact stat_appendContent_dir name b hq
    | some fault => exact stat_appendContent_dir name _ hq

theorem Close_snd (f : Option Path) (cf : Option Errno) (fs : FS) :
    (File.Close f cf fs).2 = fs := by
  unfold File.Close
  cases f with
  | none => rfl
  | some name => cases cf <;> rfl

theorem commitOutcome_snd (r : Option GoError × FS) : (commitOutcome r).2 = r.2 := by
  obtain ⟨e, fs⟩ := r
  cases e with
  | none => rfl
  | some err =>
    unfold commitOutcome
    simp only
    split <;> rfl

/-- `SaveManifest` keeps every directory that exists at or below
`<rootDir>/sandbox`, provided the adoption primitive does. -/
theorem SaveManifest_keeps_sandbox_dir (d : Deps M N MS LS) (io : Staging)
    (store : ImageStore MS LS) (m : M) (n : N) (rootDir : Path) (fs : FS)
    (hlink : d.AdoptKeepsSandbox) {q : Path} {perm : Nat}
    (hin : atOrBelow (rootDir ++ ["sandbox"]) q = true)
    (hq : stat fs q = some (.dir perm)) :
    stat (store.SaveManifest d io m n fs).2 q = some (.dir perm) := by
  have h1 := stat_TempFile_mono store.SandboxDir "" io.rand hq
  unfold ImageStore.SaveManifest
  split
  · exact hq
  · rename_i js hm
    split
    · rename_i f err fs1 hs; rw [hs] at h1; exact h1
    · rename_i f fs1 hs
      rw [hs] at h1
      have h2 := stat_Write_dir f js io.writeFault h1
      split
      · rename_i k err fs2 hw; rw [hw] at h2; exact h2
      · rename_i k fs2 hw
        rw [hw] at h2
        have h3 : stat (File.Close f io.closeFault fs2).2 q = some (.dir perm) := by
          rw [Close_snd]; exact h2
        split
        · rename_i err fs3 hc; rw [hc] at h3; exact h3
        · rename_i fs3 hc
          rw [hc] at h3
          have h4 := hlink store.Manifests (d.GetRepository n) (d.GetTag n) (File.Name f)
            rootDir fs3 q _ hin h3
          simp only
          split
          · rename_i err fs4 hl
            rw [hl] at h4
            split <;> exact h4
          · rename_i fs4 hl
            rw [hl] at h4
            exact h4

/-- C10: construction is not atomic. When the sandbox has been allocated and
opening the manifest store or the layer store then fails, `NewImageStore`
returns a nil store and an error, yet the sandbox directory it has just created
(absent before the call, a direct child of `<root>/sandbox`) is still there in
the filesystem it leaves. A later successful `CleanupSandbox(root)` removes it,
while a later `NewImageStore` on the root, and a later `SaveManifest` whose
adoption primitive leaves the sandbox area alone, keep it. The sub-store
constructors are taken to leave `<root>/sandbox` alone. -/
theorem NewImageStore_failure_leaves_sandbox (d : Deps M N MS LS) (rand : Nat → String)
    (rootDir : Path) (fs fs1 fs2 : FS) (p : Path) (hkeep : d.SubStoresKeepSandbox)
    (h1 : os.MkdirAll (rootDir ++ ["sandbox"]) 493 fs = (none, fs1))
    (h2 : ioutil.TempDir (rootDir ++ ["sandbox"]) "sandbox" rand fs1 = ((p, none), fs2))
    (hfail : (∃ err, (d.NewManifestStore rootDir fs2).1 = .error err) ∨
      (∃ m err, (d.NewManifestStore rootDir fs2).1 = .ok m ∧
        (d.NewLayerTarStore rootDir (d.NewManifestStore rootDir fs2).2).1 = .error err)) :
    (NewImageStore d rand rootDir fs).1.1 = none ∧
    (NewImageStore d rand rootDir fs).1.2 ≠ none ∧
    (∃ name, p = rootDir ++ ["sandbox"] ++ [name]) ∧
    stat fs p = none ∧
    isDir (NewImageStore d rand rootDir fs).2 p = true ∧
    (∀ fs5, CleanupSandbox rootDir (NewImageStore d rand rootDir fs).2 = (none, fs5) →
      stat fs5 p = none) ∧
    (∀ rand1 : Nat → String,
      isDir (NewImageStore d rand1 rootDir (NewImageStore d rand rootDir fs).2).2 p = true) ∧
    (d.AdoptKeepsSandbox → ∀ (io : Staging) (store : ImageStore MS LS) (m : M) (n : N),
      isDir (store.SaveManifest d io m n (NewImageStore d rand rootDir fs).2).2 p = true) := by
  obtain ⟨name, hp, hfree, hfs2⟩ := TempDir_ok (by simp) h2
  have hin : atOrBelow (rootDir ++ ["sandbox"]) p = true := by
    rw [hp]; exact atOrBelow_append _ _
  have h2s : stat fs2 p = some (.dir 448) := by
    rw [hfs2, stat_append_of_none _ hfree, stat_single]
    simp
  have hfresh : stat fs p = none := by
    cases hst : stat fs p with
    | none => rfl
    | some n =>
      have := stat_MkdirAll_mono (rootDir ++ ["sandbox"]) 493 hst
      rw [h1, hfree] at this
      cases this
  have h3s := (hkeep rootDir fs2).1 _ _ hin h2s
  -- what follows from a failed result whose filesystem still holds the sandbox
  have hclose : ∀ (err : GoError) (fsR : FS),
      NewImageStore d rand rootDir fs = ((none, some err), fsR) →
      stat fsR p = some (.dir 448) →
      (NewImageStore d rand rootDir fs).1.1 = none ∧
      (NewImageStore d rand rootDir fs).1.2 ≠ none ∧
      (∃ name, p = rootDir ++ ["sandbox"] ++ [name]) ∧
      stat fs p = none ∧
      isDir (NewImageStore d rand rootDir fs).2 p = true ∧
      (∀ fs5, CleanupSandbox rootDir (NewImageStore d rand rootDir fs).2 = (none, fs5) →
        stat fs5 p = none) ∧
      (∀ rand1 : Nat → String,
        isDir (NewImageStore d rand1 rootDir (NewImageStore d rand rootDir fs).2).2 p =
          true) ∧
      (d.AdoptKeepsSandbox → ∀ (io : Staging) (store : ImageStore MS LS) (m : M) (n : N),
        isDir (store.SaveManifest d io m n (NewImageStore d rand rootDir fs).2).2 p =
          true) := by
    intro err fsR hres hR
    rw [hres]
    refine ⟨rfl, by simp, ⟨name, hp⟩, hfresh, isDir_of_stat hR, ?_, ?_, ?_⟩
    · intro fs5 hc
      rw [CleanupSandbox_ok_iff] at hc
      exact stat_none_of_absent (RemoveAll_ok_none_left hc) p hin
    · intro rand1
      exact isDir_of_stat (NewImageStore_keeps_sandbox d rand1 rootDir fsR hkeep p _ hin hR)
    · intro hlink io store m n
      exact isDir_of_stat
        (SaveManifest_keeps_sandbox_dir d io store m n rootDir fsR hlink hin hR)
  rcases hfail with ⟨err, he⟩ | ⟨m, err, hm, he⟩
  · rcases h3 : d.NewManifestStore rootDir fs2 with ⟨r3, fs3⟩
    rw [h3] at he h3s
    simp only at he
    subst he
    have hres : NewImageStore d rand rootDir fs =
        ((none, some (fmt.Errorf "init manifest store: " err)), fs3) := by
      unfold NewImageStore
      simp only [h1, h2, h3]
    exact hclose _ fs3 hres h3s
  · rcases h3 : d.NewManifestStore rootDir fs2 with ⟨r3, fs3⟩
    rw [h3] at hm he h3s
    simp only at hm he
    subst hm
    have h4s := (hkeep rootDir fs3).2 _ _ hin h3s
    rcases h4 : d.NewLayerTarStore rootDir fs3 with ⟨r4, fs4⟩
    rw [h4] at he h4s
    simp only at he
    subst he
    have hres : NewImageStore d rand rootDir fs =
        ((none, some (fmt.Errorf "init layer store: " err)), fs4) := by
      unfold NewImageStore
      simp only [h1, h2, h3, h4]
    exact hclose _ fs4 hres h4s

/-! ### `SaveManifest` after teardown -/

theorem tempFileLoop_unresolved (dir : Path) (pfx : String) (rand : Nat → String)
    (fuel i : Nat) (last : Option GoError) {fs : FS} {errno : Errno} (hfuel : 0 < fuel)
    (hmiss : dirErrno fs dir = some errno) :
    ioutil.tempFileLoop dir pfx rand fuel i last fs =
      ((none, some (.PathError "open" (dir ++ [pfx ++ rand i]) errno)), fs) := by
  obtain ⟨k, rfl⟩ : ∃ k, fuel = k + 1 := ⟨fuel - 1, by omega⟩
  have hc : createEntry "open" (dir ++ [pfx ++ rand i]) (.file 384 []) fs =
      (some (.PathError "open" (dir ++ [pfx ++ rand i]) errno), fs) :=
    createEntry_unresolved "open" _ (by rw [List.dropLast_concat]; exact hmiss)
  have hex : os.IsExist (.PathError "open" (dir ++ [pfx ++ rand i]) errno) = false := by
    rcases dirErrno_range dir hmiss with h | h <;> subst h <;> rfl
  rw [ioutil.tempFileLoop]
  simp only [hc, hex]
  rfl

/-- `ioutil.TempFile` in a named directory that does not resolve fails on its
first try with the errno of the resolution and creates nothing. -/
theorem TempFile_unresolved {dir : Path} (pattern : String) (rand : Nat → String) {fs : FS}
    {errno : Errno} (hdir : dir ≠ []) (hmiss : dirErrno fs dir = some errno) :
    ioutil.TempFile dir pattern rand fs =
      ((none, some (.PathError "open" (dir ++ [pattern ++ rand 0]) errno)), fs) := by
  unfold ioutil.TempFile
  rw [if_neg hdir]
  exact tempFileLoop_unresolved dir pattern rand 10000 0 none (by decide) hmiss

/-- With its sandbox directory out of reach, `SaveManifest` stops at the
creation of the temp file (or earlier, at the encoding) and changes nothing. -/
theorem SaveManifest_unresolved_sandbox (d : Deps M N MS LS) (io : Staging)
    (store : ImageStore MS LS) (m : M) (n : N) {fs : FS} {errno : Errno}
    (hdir : store.SandboxDir ≠ []) (hgone : dirErrno fs store.SandboxDir = some errno) :
    store.SaveManifest d io m n fs =
      match d.Marshal m with
      | .error err => (some (.errorString ("marshal manifest to JSON: " ++ err.Error)), fs)
      | .ok _ =>
        (some (.errorString ("create tmp manifest file: " ++
          (GoError.PathError "open" (store.SandboxDir ++ ["" ++ io.rand 0]) errno).Error)),
          fs) := by
  unfold ImageStore.SaveManifest
  cases hm : d.Marshal m with
  | error err => simp only [fmt.Errorf]
  | ok js =>
    simp only
    rw [TempFile_unresolved "" io.rand hdir hgone]
    simp only [fmt.Errorf]

/-- C4 (amended): once `CleanupSandbox(root)` has succeeded, the sandbox
directory of a store constructed on that root is gone, and every `SaveManifest`
call of that store made while the directory is absent fails and changes
nothing. The error is the encoding error when JSON encoding fails and
otherwise the staging error of the temp-file creation, carrying the errno with
which the resolution of the sandbox path fails: `ENOENT` right after the
cleanup, and later `ENOENT` or, when a regular file has taken the place of a
component on the way, `ENOTDIR`. Its kind is the encoding or the staging kind.
The adoption primitive and the I/O faults have no part in the result. -/
theorem SaveManifest_after_cleanup_fails_at_staging (d : Deps M N MS LS)
    (rand : Nat → String) (store : ImageStore MS LS) (rootDir : Path) (fs0 fsA fs fs1 : FS)
    (hnew : NewImageStore d rand rootDir fs0 = ((some store, none), fsA))
    (hclean : CleanupSandbox rootDir fs = (none, fs1)) :
    stat fs1 store.SandboxDir = none ∧
    dirErrno fs1 store.SandboxDir = some .ENOENT ∧
    ∀ (io : Staging) (m : M) (n : N) (fsX : FS), stat fsX store.SandboxDir = none →
      ∃ msg errno,
        store.SaveManifest d io m n fsX = (some (.errorString msg), fsX) ∧
        (saveErrorKind msg = some .EncodingError ∨ saveErrorKind msg = some .StagingError) ∧
        dirErrno fsX store.SandboxDir = some errno ∧
        (errno = .ENOENT ∨ errno = .ENOTDIR) ∧
        (∀ err, d.Marshal m = .error err → msg = "marshal manifest to JSON: " ++ err.Error) ∧
        (∀ js, d.Marshal m = .ok js →
          msg = "create tmp manifest file: " ++
            (GoError.PathError "open" (store.SandboxDir ++ ["" ++ io.rand 0]) errno).Error) ∧
        ∀ (link : MS → String → String → Path → FS → Option GoError × FS)
          (wf : Option (Nat × Errno)) (cf : Option Errno),
          store.SaveManifest { d with LinkStoreFileFrom := link }
            { rand := io.rand, writeFault := wf, closeFault := cf } m n fsX =
            (some (.errorString msg), fsX) := by
  obtain ⟨_, fs2, _, _, _, _, htd, _, _, _, _⟩ := NewImageStore_ok hnew
  obtain ⟨name, hp, _, _⟩ := TempDir_ok (by simp) htd
  have hdir : store.SandboxDir ≠ [] := by rw [hp]; simp
  rw [CleanupSandbox_ok_iff] at hclean
  have hparent : (rootDir ++ ["sandbox"]).dropLast = rootDir := List.dropLast_concat
  have hgone1 : stat fs1 store.SandboxDir = none := by
    apply stat_none_of_absent (RemoveAll_ok_none_left hclean)
    rw [hp]; exact atOrBelow_append _ _
  have hgoneP : stat fs1 (rootDir ++ ["sandbox"]) = none := by
    apply stat_none_of_absent (RemoveAll_ok_none_left hclean)
    simpa using atOrBelow_append (rootDir ++ ["sandbox"]) []
  have hroot : dirErrno fs1 rootDir ≠ some .ENOTDIR := by
    have h1 := (RemoveAll_ok hclean).1
    rw [← dirErrno_RemoveAll_ok (by simp) hclean, hparent] at h1
    exact h1
  have hP : dirErrno fs1 (rootDir ++ ["sandbox"]) = some .ENOENT := by
    rw [dirErrno_snoc]
    cases hr : dirErrno fs1 rootDir with
    | some e =>
      rcases dirErrno_range rootDir hr with h | h
      · rw [h]
      · rw [hr, h] at hroot; exact absurd rfl hroot
    | none => simp [notDirErrno, hgoneP]
  have hS : dirErrno fs1 store.SandboxDir = some .ENOENT := by
    rw [hp, dirErrno_snoc, hP]
  refine ⟨hgone1, hS, ?_⟩
  intro io m n fsX hgone
  obtain ⟨errno, herrno, hrange⟩ := dirErrno_of_stat_none hgone
  have hsave := SaveManifest_unresolved_sandbox d io store m n hdir herrno
  have hsave1 := fun (link : MS → String → String → Path → FS → Option GoError × FS)
      (wf : Option (Nat × Errno)) (cf : Option Errno) =>
    SaveManifest_unresolved_sandbox { d with LinkStoreFileFrom := link }
      { rand := io.rand, writeFault := wf, closeFault := cf } store m n hdir herrno
  cases hm : d.Marshal m with
  | error err =>
    rw [hm] at hsave
    refine ⟨"marshal manifest to JSON: " ++ err.Error, errno, hsave,
      Or.inl (saveErrorKind_marshal _), herrno, hrange, ?_, ?_, ?_⟩
    · intro err1 h1
      simp only [Except.error.injEq] at h1
      rw [h1]
    · intro js h1
      cases h1
    · intro link wf cf
      have := hsave1 link wf cf
      simp only [hm] at this
      exact this
  | ok js =>
    rw [hm] at hsave
    refine ⟨_, errno, hsave, Or.inr (saveErrorKind_create _), herrno, hrange, ?_, ?_, ?_⟩
    · intro err1 h1
      cases h1
    · intro js1 _
      rfl
    · intro link wf cf
      have := hsave1 link wf cf
      simp only [hm] at this
      exact this

/-! ### Committing the same key twice -/

theorem entryCount_append (fs l : FS) (p : Path) :
    entryCount (fs ++ l) p = entryCount fs p + entryCount l p := by
  simp [entryCount, List.filter_append]

theorem entryCount_single (q p : Path) (n : Node) :
    entryCount [(q, n)] p = if q = p then 1 else 0 := by
  by_cases h : q = p <;> simp [entryCount, List.filter_cons, h]

theorem entryCount_eq_zero_iff {fs : FS} {p : Path} :
    entryCount fs p = 0 ↔ stat fs p = none := by
  rw [stat_eq_none_iff]
  simp [entryCount, List.filter_eq_nil_iff]

/-- Filesystem once the three staging steps have succeeded: the old one plus a
new file, directly in the sandbox, holding the encoded manifest. -/
theorem staged_state {dir : Path} {rand : Nat → String} {wf : Option (Nat × Errno)}
    {cf : Option Errno} {fs fs1 fs2 fs3 : FS} {js : Bytes} {f : Option Path} {k : Nat}
    (hdir : dir ≠ [])
    (hs : ioutil.TempFile dir "" rand fs = ((f, none), fs1))
    (hw : File.Write f js wf fs1 = ((k, none), fs2))
    (hc : File.Close f cf fs2 = (none, fs3)) :
    ∃ name, f = some (dir ++ [name]) ∧ stat fs (dir ++ [name]) = none ∧
      fs3 = fs ++ [(dir ++ [name], .file 384 js)] := by
  obtain ⟨name, hf, hfree, _, hfs1⟩ := TempFile_ok hdir hs
  subst hf
  have hfs3 : fs3 = fs2 := by
    unfold File.Close at hc
    cases cf with
    | none => simp only [Prod.mk.injEq, true_and] at hc; exact hc.symm
    | some e => simp at hc
  have hfs2 : fs2 = appendContent (dir ++ [name]) js fs1 := by
    unfold File.Write at hw
    cases wf with
    | none => simp only [Prod.mk.injEq, and_true] at hw; exact hw.2.symm
    | some e => simp at hw
  refine ⟨name, rfl, hfree, ?_⟩
  rw [hfs3, hfs2, hfs1, appendContent_append,
    appendContent_of_absent js (stat_eq_none_iff.mp hfree), appendContent_new_file]

/-- One `SaveManifest` call whose encoding and staging succeed, against an
adoption primitive that links once: the call returns `nil`; the staged file is
added, and the key's entry too when the key was absent. -/
theorem SaveManifest_once (d : Deps M N MS LS) (keyPath : MS → String → String → Path)
    (io : Staging) (store : ImageStore MS LS) (m : M) (n : N) (fs : FS) (js : Bytes)
    (hadopt : d.AdoptsOnce keyPath) (hdir : store.SandboxDir ≠ [])
    (hm : d.Marshal m = .ok js) (hst : StagingSucceeds io store fs) :
    ∃ name, stat fs (store.SandboxDir ++ [name]) = none ∧
      store.SaveManifest d io m n fs =
        (none,
          if stat (fs ++ [(store.SandboxDir ++ [name], .file 384 js)])
              (keyPath store.Manifests (d.GetRepository n) (d.GetTag n)) = none then
            fs ++ [(store.SandboxDir ++ [name], .file 384 js)] ++
              [(keyPath store.Manifests (d.GetRepository n) (d.GetTag n), .file 384 js)]
          else fs ++ [(store.SandboxDir ++ [name], .file 384 js)]) := by
  obtain ⟨hs0, hwf, hcf⟩ := hst
  rcases hs : ioutil.TempFile store.SandboxDir "" io.rand fs with ⟨⟨f, e⟩, fs1⟩
  rw [hs] at hs0
  simp only at hs0
  subst hs0
  obtain ⟨name0, hf0, _, _, _⟩ := TempFile_ok hdir hs
  subst hf0
  have hw : File.Write (some (store.SandboxDir ++ [name0])) js io.writeFault fs1 =
      ((js.length, none), appendContent (store.SandboxDir ++ [name0]) js fs1) := by
    rw [hwf]; rfl
  have hc : File.Close (some (store.SandboxDir ++ [name0])) io.closeFault
      (appendContent (store.SandboxDir ++ [name0]) js fs1) =
      (none, appendContent (store.SandboxDir ++ [name0]) js fs1) := by
    rw [hcf]; rfl
  obtain ⟨name, hf, hfree, hfs3⟩ := staged_state hdir hs hw hc
  simp only [Option.some.injEq] at hf
  refine ⟨name, hfree, ?_⟩
  rw [SaveManifest_of_staged d io store m n hm hs hw hc, hfs3]
  simp only [File.Name, Option.getD_some, hf]
  have hstaged : stat (fs ++ [(store.SandboxDir ++ [name], Node.file 384 js)])
      (store.SandboxDir ++ [name]) = some (.file 384 js) := by
    rw [stat_append_of_none _ hfree, stat_single]
    simp
  have hcontract := hadopt store.Manifests (d.GetRepository n) (d.GetTag n)
    (store.SandboxDir ++ [name]) (fs ++ [(store.SandboxDir ++ [name], Node.file 384 js)])
  by_cases hkey : stat (fs ++ [(store.SandboxDir ++ [name], Node.file 384 js)])
      (keyPath store.Manifests (d.GetRepository n) (d.GetTag n)) = none
  · rw [hcontract.1 hkey 384 js hstaged]
    simp only [hkey, if_true, commitOutcome]
  · obtain ⟨err, hex, hlink⟩ := hcontract.2 hkey
    rw [hlink]
    simp only [hkey, if_false, commitOutcome, hex]
    rfl

theorem ready_sandbox_ne_nil {store : ImageStore MS LS} {fs : FS} (h : store.Ready fs) :
    store.SandboxDir ≠ [] := by
  intro h0
  have h1 := h.1
  rw [h0] at h1
  simp at h1

/-- C2 (amended): for a ready store, a manifest whose JSON encoding succeeds,
and two `SaveManifest` calls in a row with the same manifest and image name
whose staging steps succeed, against an adoption primitive that links the
staged file when the key is absent and answers already-exists, changing
nothing, when it is present: both calls return `nil`; after each call the key
has exactly one entry, and the node found under the key after the second call
is the one found after the first; the second call adds nothing but its own
staged file in the sandbox; and when the key was absent at the start, the node
under it holds the encoded manifest. The key is taken to have at most one
entry at the start. -/
theorem SaveManifest_twice_one_artifact (d : Deps M N MS LS)
    (keyPath : MS → String → String → Path) (io1 io2 : Staging)
    (store : ImageStore MS LS) (m : M) (n : N) (fs : FS) (js : Bytes)
    (hadopt : d.AdoptsOnce keyPath)
    (hready : store.Ready fs)
    (hm : d.Marshal m = .ok js)
    (hst1 : StagingSucceeds io1 store fs)
    (hst2 : StagingSucceeds io2 store (store.SaveManifest d io1 m n fs).2)
    (hone : entryCount fs (keyPath store.Manifests (d.GetRepository n) (d.GetTag n)) ≤ 1) :
    (store.SaveManifest d io1 m n fs).1 = none ∧
    (store.SaveManifest d io2 m n (store.SaveManifest d io1 m n fs).2).1 = none ∧
    entryCount (store.SaveManifest d io1 m n fs).2
      (keyPath store.Manifests (d.GetRepository n) (d.GetTag n)) = 1 ∧
    entryCount (store.SaveManifest d io2 m n (store.SaveManifest d io1 m n fs).2).2
      (keyPath store.Manifests (d.GetRepository n) (d.GetTag n)) = 1 ∧
    (∃ node,
      stat (store.SaveManifest d io1 m n fs).2
        (keyPath store.Manifests (d.GetRepository n) (d.GetTag n)) = some node ∧
      stat (store.SaveManifest d io2 m n (store.SaveManifest d io1 m n fs).2).2
        (keyPath store.Manifests (d.GetRepository n) (d.GetTag n)) = some node ∧
      (stat fs (keyPath store.Manifests (d.GetRepository n) (d.GetTag n)) = none →
        node = .file 384 js)) ∧
    (∃ name, stat (store.SaveManifest d io1 m n fs).2 (store.SandboxDir ++ [name]) = none ∧
      (store.SaveManifest d io2 m n (store.SaveManifest d io1 m n fs).2).2 =
        (store.SaveManifest d io1 m n fs).2 ++ [(store.SandboxDir ++ [name], .file 384 js)]) := by
  have hdir := ready_sandbox_ne_nil hready
  have honce := fun (io : Staging) (S : FS) (hst : StagingSucceeds io store S) =>
    SaveManifest_once d keyPath io store m n S js hadopt hdir hm hst
  generalize keyPath store.Manifests (d.GetRepository n) (d.GetTag n) = kp at *
  obtain ⟨t1, hfree1, hr1⟩ := honce io1 fs hst1
  -- state after the first call
  have hS1 : ∃ S1 node, store.SaveManifest d io1 m n fs = (none, S1) ∧
      stat S1 kp = some node ∧ entryCount S1 kp = 1 ∧
      (stat fs kp = none → node = .file 384 js) := by
    by_cases hkey : stat (fs ++ [(store.SandboxDir ++ [t1], Node.file 384 js)]) kp = none
    · rw [if_pos hkey] at hr1
      refine ⟨_, .file 384 js, hr1, ?_, ?_, fun _ => rfl⟩
      · rw [stat_append_of_none _ hkey, stat_single]
        simp
      · rw [entryCount_append, entryCount_single, entryCount_eq_zero_iff.mpr hkey]
        simp
    · rw [if_neg hkey] at hr1
      obtain ⟨node, hnode⟩ := Option.ne_none_iff_exists'.mp hkey
      refine ⟨_, node, hr1, hnode, ?_, ?_⟩
      · rw [entryCount_append, entryCount_single]
        cases hfs : stat fs kp with
        | none =>
          rw [stat_append_of_none _ hfs, stat_single] at hnode
          have hcnt := entryCount_eq_zero_iff.mpr hfs
          by_cases ht : store.SandboxDir ++ [t1] = kp
          · simp [ht, hcnt]
          · simp [ht] at hnode
        | some node0 =>
          have hpos : entryCount fs kp ≠ 0 := by
            intro h0
            rw [entryCount_eq_zero_iff.mp h0] at hfs
            cases hfs
          have ht : store.SandboxDir ++ [t1] ≠ kp := by
            intro ht
            rw [ht, hfs] at hfree1
            cases hfree1
          simp only [ht, if_false]
          omega
      · intro hfs
        rw [stat_append_of_none _ hfs, stat_single] at hnode
        by_cases ht : store.SandboxDir ++ [t1] = kp
        · simp only [ht, if_true, Option.some.injEq] at hnode
          exact hnode.symm
        · simp [ht] at hnode
  obtain ⟨S1, node, hcall1, hnode1, hcnt1, hfresh⟩ := hS1
  rw [hcall1] at hst2 ⊢
  simp only at hst2 ⊢
  obtain ⟨t2, hfree2, hr2⟩ := honce io2 S1 hst2
  have hkey2 : stat (S1 ++ [(store.SandboxDir ++ [t2], Node.file 384 js)]) kp = some node :=
    stat_append_of_some _ hnode1
  rw [if_neg (by rw [hkey2]; simp)] at hr2
  rw [hr2]
  have ht2 : store.SandboxDir ++ [t2] ≠ kp := by
    intro ht
    rw [ht, hnode1] at hfree2
    cases hfree2
  refine ⟨trivial, rfl, hcnt1, ?_, ⟨node, hnode1, hkey2, hfresh⟩, ⟨t2, hfree2, rfl⟩⟩
  rw [entryCount_append, entryCount_single, hcnt1]
  simp [ht2]

/-! ### The scenario's collaborators meet their contracts -/

theorem scenarioDeps_keeps_sandbox : scenarioDeps.SubStoresKeepSandbox := by
  intro rootDir fs
  have key : ∀ ns : String, KeepsSandbox rootDir fs (openSubStore ns rootDir fs).2 := by
    intro ns q n _ hq
    have hmono := stat_MkdirAll_mono (rootDir ++ [ns]) 493 hq
    unfold openSubStore
    split
    · rename_i h; rw [h] at hmono; exact hmono
    · rename_i h; rw [h] at hmono; exact hmono
  exact ⟨key "manifests", key "layers"⟩

theorem scenarioDeps_adopts_once : scenarioDeps.AdoptsOnce flatKeyPath := by
  intro ms repo tag src fs
  constructor
  · intro habsent perm content hsrc
    show linkOnce ms repo tag src fs = _
    unfold linkOnce
    simp only [habsent, hsrc]
    rfl
  · intro hpresent
    refine ⟨.LinkError "link" src (flatKeyPath ms repo tag) .EEXIST, rfl, ?_⟩
    show linkOnce ms repo tag src fs = _
    unfold linkOnce
    have : (stat fs (flatKeyPath ms repo tag)).isSome = true :=
      Option.isSome_iff_ne_none.mpr hpresent
    simp only [this, if_true]

theorem scenarioDeps_adopt_keeps_sandbox : scenarioDeps.AdoptKeepsSandbox := by
  intro ms repo tag src rootDir fs q n _ hq
  show stat (linkOnce ms repo tag src fs).2 q = some n
  unfold linkOnce
  simp only
  split
  · exact hq
  · split
    · exact stat_append_of_some _ hq
    · exact hq

/-! ### The claims on the scenario -/

theorem SaveManifest_error_iff_adoption_failure_witness :
    (scenarioStore.SaveManifest deniedDeps calm scenarioManifest scenarioName readyFS).1 =
      some (.errorString
        ("commit replica manifest to store: " ++
          "link data/store/sandbox/sandbox0/0 data/store/manifests/myapp:v1: permission denied")) ∧
    (scenarioStore.SaveManifest scenarioDeps calm scenarioManifest scenarioName
      committedFS).1 = none := by
  constructor
  · have h := (SaveManifest_error_iff_adoption_failure deniedDeps calm scenarioStore
      scenarioManifest scenarioName readyFS (readyFS ++ [(stagedPath, .file 384 [])])
      stagedFS stagedFS [123, 125] (some stagedPath) 2
      rfl (by decide) (by decide) (by decide)).2.2
      (.LinkError "link" stagedPath committedPath .EACCES) (by decide) (by decide)
    rw [h]
    decide
  · exact (SaveManifest_error_iff_adoption_failure scenarioDeps calm scenarioStore
      scenarioManifest scenarioName committedFS
      (committedFS ++ [(stagedPath1, .file 384 [])])
      (committedFS ++ [(stagedPath1, .file 384 [123, 125])])
      (committedFS ++ [(stagedPath1, .file 384 [123, 125])])
      [123, 125] (some stagedPath1) 2
      rfl (by decide) (by decide) (by decide)).2.1
      (.LinkError "link" stagedPath1 committedPath .EEXIST)
      (by decide) (by decide)

/-- C2, as stated, fails: on the ready store of the scenario, with an adoption
primitive that links once, a first `SaveManifest` call that meets a full disk
returns the staging error of `Write`, not success. -/
theorem SaveManifest_twice_counterexample :
    scenarioStore.Ready readyFS ∧ scenarioDeps.AdoptsOnce flatKeyPath ∧
    scenarioStore.SaveManifest scenarioDeps diskFull scenarioManifest scenarioName readyFS =
      (some (.errorString
        ("write manifest file: " ++
          "write data/store/sandbox/sandbox0/0: no space left on device")),
        readyFS ++ [(stagedPath, .file 384 [])]) :=
  ⟨by decide, scenarioDeps_adopts_once, by decide⟩

theorem SaveManifest_twice_one_artifact_witness :
    (scenarioStore.SaveManifest scenarioDeps calm scenarioManifest scenarioName readyFS).1 =
      none ∧
    (scenarioStore.SaveManifest scenarioDeps calm scenarioManifest scenarioName
      (scenarioStore.SaveManifest scenarioDeps calm scenarioManifest scenarioName
        readyFS).2).1 = none ∧
    entryCount
      (scenarioStore.SaveManifest scenarioDeps calm scenarioManifest scenarioName
        (scenarioStore.SaveManifest scenarioDeps calm scenarioManifest scenarioName
          readyFS).2).2 committedPath = 1 := by
  have h := SaveManifest_twice_one_artifact scenarioDeps flatKeyPath calm calm scenarioStore
    scenarioManifest scenarioName readyFS [123, 125] scenarioDeps_adopts_once
    (by decide) rfl (by decide) (by decide) (by decide)
  exact ⟨h.1, h.2.1, h.2.2.2.1⟩

theorem SaveManifest_marshal_error_no_io_witness :
    scenarioStore.SaveManifest scenarioDeps calm none scenarioName readyFS =
      (some (.errorString ("marshal manifest to JSON: " ++ "json: unsupported value")),
        readyFS) :=
  (SaveManifest_marshal_error_no_io scenarioDeps calm scenarioStore none scenarioName readyFS
    (.errorString "json: unsupported value") rfl).1

/-- C4, as stated, fails: on the scenario, the store is constructed, the
sandbox is cleaned up, and the `SaveManifest` call that follows returns the
error built by the temp-file creation step, whose kind is `StagingError`, not
`InvalidStateError`. And once a later construction on the same root has drawn
the same sandbox name, a `SaveManifest` call of the store succeeds again. -/
theorem SaveManifest_after_cleanup_counterexample :
    NewImageStore scenarioDeps scenarioRand scenarioRoot scenarioFS =
      ((some scenarioStore, none), readyFS) ∧
    CleanupSandbox scenarioRoot readyFS = (none, tornDownFS) ∧
    scenarioStore.SaveManifest scenarioDeps calm scenarioManifest scenarioName tornDownFS =
      (some (.errorString
        ("create tmp manifest file: " ++
          "open data/store/sandbox/sandbox0/0: no such file or directory")),
        tornDownFS) ∧
    saveErrorKind
        ("create tmp manifest file: " ++
          "open data/store/sandbox/sandbox0/0: no such file or directory") =
      some .StagingError ∧
    saveErrorKind
        ("create tmp manifest file: " ++
          "open data/store/sandbox/sandbox0/0: no such file or directory") ≠
      some .InvalidStateError ∧
    NewImageStore scenarioDeps scenarioRand scenarioRoot tornDownFS =
      ((some scenarioStore, none), rebuiltFS) ∧
    (scenarioStore.SaveManifest scenarioDeps calm scenarioManifest scenarioName
      rebuiltFS).1 = none :=
  ⟨by decide, by decide, by decide, by decide, by decide, by decide, by decide⟩

theorem SaveManifest_after_cleanup_fails_at_staging_witness :
    stat tornDownFS scenarioStore.SandboxDir = none ∧
    (∃ msg, scenarioStore.SaveManifest scenarioDeps calm scenarioManifest scenarioName
        tornDownFS = (some (.errorString msg), tornDownFS) ∧
      saveErrorKind msg = some .StagingError) ∧
    scenarioStore.SaveManifest scenarioDeps calm scenarioManifest scenarioName
        sandboxIsFileFS =
      (some (.errorString
        ("create tmp manifest file: " ++
          "open data/store/sandbox/sandbox0/0: not a directory")),
        sandboxIsFileFS) := by
  have h := SaveManifest_after_cleanup_fails_at_staging scenarioDeps scenarioRand
    scenarioStore scenarioRoot scenarioFS readyFS readyFS tornDownFS (by decide) (by decide)
  refine ⟨h.1, ?_, ?_⟩
  · obtain ⟨msg, errno, hres, _, _, _, _, hmsg, _⟩ :=
      h.2.2 calm scenarioManifest scenarioName tornDownFS h.1
    refine ⟨msg, hres, ?_⟩
    rw [hmsg [123, 125] rfl]
    exact saveErrorKind_create _
  · obtain ⟨msg, errno, hres, _, herrno, _, _, hmsg, _⟩ :=
      h.2.2 calm scenarioManifest scenarioName sandboxIsFileFS (by decide)
    have hwalk : dirErrno sandboxIsFileFS scenarioStore.SandboxDir = some .ENOTDIR := by
      decide
    rw [hwalk] at herrno
    simp only [Option.some.injEq] at herrno
    subst herrno
    rw [hres, hmsg [123, 125] rfl]
    decide

theorem NewImageStore_first_failing_step_witness :
    NewImageStore scenarioDeps scenarioRand scenarioRoot sandboxIsFileFS =
      ((none, some (.errorString
        ("init sandbox parent dir: " ++ "mkdir data/store/sandbox: not a directory"))),
        sandboxIsFileFS) ∧
    NewImageStore scenarioDeps scenarioRand scenarioRoot lockedSandboxFS =
      ((none, some (.errorString
        ("init sandbox dir: " ++ "mkdir data/store/sandbox/sandbox0: permission denied"))),
        lockedSandboxFS) ∧
    NewImageStore scenarioDeps scenarioRand scenarioRoot blockedFS =
      ((none, some (.errorString
        ("init manifest store: " ++ "mkdir data/store/manifests: not a directory"))),
        blockedFS ++ [(["data", "store", "sandbox"], .dir 493),
          (["data", "store", "sandbox", "sandbox0"], .dir 448)]) ∧
    NewImageStore scenarioDeps scenarioRand scenarioRoot blockedLayersFS =
      ((none, some (.errorString
        ("init layer store: " ++ "mkdir data/store/layers: not a directory"))),
        blockedLayersFS ++ [(["data", "store", "sandbox"], .dir 493),
          (["data", "store", "sandbox", "sandbox0"], .dir 448),
          (["data", "store", "manifests"], .dir 493)]) ∧
    NewImageStore scenarioDeps scenarioRand scenarioRoot scenarioFS =
      ((some scenarioStore, none), readyFS) := by
  have hA := NewImageStore_first_failing_step scenarioDeps scenarioRand scenarioRoot
    sandboxIsFileFS
  have hL := NewImageStore_first_failing_step scenarioDeps scenarioRand scenarioRoot
    lockedSandboxFS
  have hB := NewImageStore_first_failing_step scenarioDeps scenarioRand scenarioRoot blockedFS
  have hD := NewImageStore_first_failing_step scenarioDeps scenarioRand scenarioRoot
    blockedLayersFS
  have hC := NewImageStore_first_failing_step scenarioDeps scenarioRand scenarioRoot scenarioFS
  refine ⟨?_, ?_, ?_, ?_, ?_⟩
  · exact (hA.1 (.PathError "mkdir" ["data", "store", "sandbox"] .ENOTDIR) sandboxIsFileFS
      (by decide) scenarioDeps scenarioRand).1
  · exact (hL.2.1 lockedSandboxFS []
      (.PathError "mkdir" ["data", "store", "sandbox", "sandbox0"] .EACCES) lockedSandboxFS
      (by decide) (by decide) scenarioDeps).1
  · exact (hB.2.2.1 (blockedFS ++ [(["data", "store", "sandbox"], Node.dir 493)])
      ["data", "store", "sandbox", "sandbox0"]
      (blockedFS ++ [(["data", "store", "sandbox"], Node.dir 493),
          (["data", "store", "sandbox", "sandbox0"], Node.dir 448)])
      (.PathError "mkdir" ["data", "store", "manifests"] .ENOTDIR)
      (blockedFS ++ [(["data", "store", "sandbox"], Node.dir 493),
          (["data", "store", "sandbox", "sandbox0"], Node.dir 448)])
      (by decide) (by decide) (by rfl) scenarioDeps.NewLayerTarStore).1
  · exact (hD.2.2.2.1 (blockedLayersFS ++ [(["data", "store", "sandbox"], Node.dir 493)])
      ["data", "store", "sandbox", "sandbox0"]
      (blockedLayersFS ++ [(["data", "store", "sandbox"], Node.dir 493),
          (["data", "store", "sandbox", "sandbox0"], Node.dir 448)])
      ["data", "store", "manifests"]
      (blockedLayersFS ++ [(["data", "store", "sandbox"], Node.dir 493),
          (["data", "store", "sandbox", "sandbox0"], Node.dir 448),
          (["data", "store", "manifests"], Node.dir 493)])
      (.PathError "mkdir" ["data", "store", "layers"] .ENOTDIR)
      (blockedLayersFS ++ [(["data", "store", "sandbox"], Node.dir 493),
          (["data", "store", "sandbox", "sandbox0"], Node.dir 448),
          (["data", "store", "manifests"], Node.dir 493)])
      (by decide) (by decide) (by rfl) (by rfl)).1
  · exact hC.2.2.2.2.1
      (scenarioFS ++ [(["data", "store", "sandbox"], Node.dir 493)])
      ["data", "store", "sandbox", "sandbox0"]
      (scenarioFS ++ [(["data", "store", "sandbox"], Node.dir 493),
          (["data", "store", "sandbox", "sandbox0"], Node.dir 448)])
      ["data", "store", "manifests"]
      (scenarioFS ++ [(["data", "store", "sandbox"], Node.dir 493),
          (["data", "store", "sandbox", "sandbox0"], Node.dir 448),
          (["data", "store", "manifests"], Node.dir 493)])
      ["data", "store", "layers"] readyFS
      (by decide) (by decide) (by rfl) (by rfl)

theorem NewImageStore_twice_distinct_sandboxes_witness :
    NewImageStore scenarioDeps scenarioRand scenarioRoot scenarioFS =
      ((some scenarioStore, none), readyFS) ∧
    NewImageStore scenarioDeps scenarioRand scenarioRoot readyFS =
      ((some secondStore, none),
        readyFS ++ [(["data", "store", "sandbox", "sandbox1"], Node.dir 448)]) ∧
    scenarioStore.SandboxDir ≠ secondStore.SandboxDir ∧
    isDir (readyFS ++ [(["data", "store", "sandbox", "sandbox1"], Node.dir 448)])
      scenarioStore.SandboxDir = true ∧
    isDir (readyFS ++ [(["data", "store", "sandbox", "sandbox1"], Node.dir 448)])
      secondStore.SandboxDir = true := by
  have h := NewImageStore_twice_distinct_sandboxes scenarioDeps scenarioRand scenarioRand
    scenarioRoot scenarioFS readyFS
    (readyFS ++ [(["data", "store", "sandbox", "sandbox1"], Node.dir 448)])
    scenarioStore secondStore scenarioDeps_keeps_sandbox (by decide) (by decide)
  exact ⟨by decide, by decide, h.1, h.2.2.2.2.1, h.2.2.2.2.2⟩

/-- C7, as stated, fails: with a regular file in the place of the store root,
`<root>/sandbox` does not exist at all, yet `CleanupSandbox(root)` returns an
error. -/
theorem CleanupSandbox_absent_counterexample :
    parentsExist rootIsFileFS = true ∧
    stat rootIsFileFS (scenarioRoot ++ ["sandbox"]) = none ∧
    (∀ e ∈ rootIsFileFS, atOrBelow (scenarioRoot ++ ["sandbox"]) e.1 = false) ∧
    CleanupSandbox scenarioRoot rootIsFileFS =
      (some (.errorString
        ("remove sandbox parent data/store/sandbox: " ++
          "unlinkat data/store/sandbox: not a directory")),
        rootIsFileFS) :=
  ⟨by decide, by decide, by decide, by decide⟩

theorem CleanupSandbox_idempotent_witness :
    CleanupSandbox scenarioRoot readyFS = (none, tornDownFS) ∧
    CleanupSandbox scenarioRoot tornDownFS = (none, tornDownFS) ∧
    stat scenarioFS (scenarioRoot ++ ["sandbox"]) = none ∧
    CleanupSandbox scenarioRoot scenarioFS = (none, scenarioFS) ∧
    (∃ err, CleanupSandbox scenarioRoot rootIsFileFS = (some err, rootIsFileFS)) :=
  ⟨by decide,
    (CleanupSandbox_idempotent scenarioRoot readyFS).1 tornDownFS (by decide),
    by decide,
    (CleanupSandbox_idempotent scenarioRoot scenarioFS).2.2.1 (by decide) (by decide)
      (by decide),
    (CleanupSandbox_idempotent scenarioRoot rootIsFileFS).2.2.2 (by decide)⟩

theorem CleanupSandbox_removes_only_sandbox_witness :
    CleanupSandbox scenarioRoot committedFS =
      (none, tornDownFS ++ [(committedPath, Node.file 384 [123, 125])]) ∧
    stat (tornDownFS ++ [(committedPath, Node.file 384 [123, 125])]) stagedPath = none ∧
    stat (tornDownFS ++ [(committedPath, Node.file 384 [123, 125])]) committedPath =
      stat committedFS committedPath := by
  have h := CleanupSandbox_removes_only_sandbox scenarioRoot committedFS
    (tornDownFS ++ [(committedPath, Node.file 384 [123, 125])]) (by decide)
  exact ⟨by decide, h.1 stagedPath (by decide), h.2.1 committedPath (by decide)⟩

theorem SaveManifest_hands_over_marshalled_file_witness :
    ∃ name : String,
      stat readyFS (scenarioStore.SandboxDir ++ [name]) = none ∧
      stagedFS = readyFS ++ [(scenarioStore.SandboxDir ++ [name], Node.file 384 [123, 125])] ∧
      scenarioStore.SaveManifest deniedDeps calm scenarioManifest scenarioName readyFS =
        commitOutcome (linkDenied scenarioStore.Manifests "myapp" "v1"
          (scenarioStore.SandboxDir ++ [name]) stagedFS) := by
  obtain ⟨name, hfree, hfs, _, hcall⟩ :=
    SaveManifest_hands_over_marshalled_file scenarioDeps calm scenarioStore scenarioManifest
      scenarioName readyFS (readyFS ++ [(stagedPath, Node.file 384 [])]) stagedFS stagedFS
      [123, 125] (some stagedPath) 2 (by decide) (by rfl) (by decide) (by decide) (by decide)
  exact ⟨name, hfree, hfs, hcall linkDenied⟩

theorem NewImageStore_failure_leaves_sandbox_witness :
    (NewImageStore scenarioDeps scenarioRand scenarioRoot blockedFS).1.1 = none ∧
    (NewImageStore scenarioDeps scenarioRand scenarioRoot blockedFS).1.2 ≠ none ∧
    stat blockedFS ["data", "store", "sandbox", "sandbox0"] = none ∧
    isDir (NewImageStore scenarioDeps scenarioRand scenarioRoot blockedFS).2
      ["data", "store", "sandbox", "sandbox0"] = true ∧
    CleanupSandbox scenarioRoot
      (NewImageStore scenarioDeps scenarioRand scenarioRoot blockedFS).2 = (none, blockedFS) ∧
    stat blockedFS ["data", "store", "sandbox", "sandbox0"] = none ∧
    isDir (scenarioStore.SaveManifest scenarioDeps calm scenarioManifest scenarioName
      (NewImageStore scenarioDeps scenarioRand scenarioRoot blockedFS).2).2
      ["data", "store", "sandbox", "sandbox0"] = true := by
  have h := NewImageStore_failure_leaves_sandbox scenarioDeps scenarioRand scenarioRoot
    blockedFS (blockedFS ++ [(["data", "store", "sandbox"], Node.dir 493)])
    (blockedFS ++ [(["data", "store", "sandbox"], Node.dir 493),
      (["data", "store", "sandbox", "sandbox0"], Node.dir 448)])
    ["data", "store", "sandbox", "sandbox0"] scenarioDeps_keeps_sandbox
    (by decide) (by decide)
    (Or.inl ⟨.PathError "mkdir" ["data", "store", "manifests"] .ENOTDIR, by rfl⟩)
  exact ⟨h.1, h.2.1, h.2.2.2.1, h.2.2.2.2.1, by decide,
    h.2.2.2.2.2.1 blockedFS (by decide),
    h.2.2.2.2.2.2.2 scenarioDeps_adopt_keeps_sandbox calm scenarioStore scenarioManifest
      scenarioName⟩

end Makisu
